import Mathlib

/-!
Shallow embedding of the `music_mesa_tables` crate core, over exact rational
arithmetic (`ℚ` standing in for `f64`).

Modules covered (translated from the Rust source):
- `is_close.rs`: absolute-tolerance closeness comparator;
- `index.rs`: uniform axis (`Range`) with construction, indexing,
  linear-interpolation classification (`idx_lin`), cubic spline stencils,
  containment and sub-range intersection; non-uniform axis (`CustomRange`);
- `interp.rs`: linear interpolator, linear stencils, windowed slicing,
  bilinear 2D interpolation (`lin_interp_2d`), centered cubic spline
  (`low_level_spline`);
- `opacity_tables.rs`: opacity table hierarchy at fixed metallicity
  (`ConstMetalTables`, `RTempTable`) with the combined query and the
  resolve-then-query path;
- `fort_unfmt.rs`: Fortran unformatted record reader over a byte stream;
- `state.rs`: state/query layer coordinate derivation (`from_de_to_logdve`,
  `CstCompoState`, `CstMetalState`).

Grid payloads (`ndarray` arrays) are modelled as total functions `ℕ → … → ℚ`;
the windowed slice operations of `interp.rs` become index-shifting function
transformers, matching `slice_axis_inplace` followed by re-based stencils.
The floating-point `log10` of `state.rs` is an explicit function parameter:
the claims about the state layer concern only which derived coordinates are
computed and passed on, not the numerics of `log10` itself.
-/

namespace MusicMesa

/-- Absolute tolerance used by `is_close` (`is_close.rs`): `1e-12`. -/
def eps : ℚ := 1 / 10 ^ 12

/-- `IsClose for f64` (`is_close.rs`): `(self - other).abs() <= 1e-12`. -/
def is_close (a b : ℚ) : Bool := decide (|a - b| ≤ eps)

/-- `Range` (`index.rs`): uniform axis `first + i * step` with `n_values` points. -/
structure Range where
  first : ℚ
  step : ℚ
  n_values : ℕ
  deriving DecidableEq

/-- `RangeError` (`index.rs`). -/
inductive RangeError where
  | fewerThanTwoValues
  | notInIncreasingOrder
  | notLinear
  deriving DecidableEq

/-- `OutOfBoundsError` (`index.rs`): carries the offending value. -/
structure OutOfBoundsError where
  value : ℚ
  deriving DecidableEq

/-- `IdxLin` (`index.rs`): classification of a query value on an axis. -/
inductive IdxLin where
  | exact (i : ℕ)
  | between (i j : ℕ)
  deriving DecidableEq

/-- Value of `Range` grid point `i` (`index.rs`, `Indexable for Range`:
`index as f64 * self.step + self.first`). -/
def Range.value (r : Range) (i : ℕ) : ℚ := (i : ℚ) * r.step + r.first

/-- `Range::get` (`index.rs`): in-bounds indexing. -/
def Range.get (r : Range) (i : ℕ) : Option ℚ :=
  if i ≥ r.n_values then none else some (r.value i)

/-- `Range::last` (`index.rs`). -/
def Range.last (r : Range) : ℚ := r.value (r.n_values - 1)

/-- The list of values a `RangeIterator` yields (`index.rs`). -/
def Range.toList (r : Range) : List ℚ := (List.range r.n_values).map r.value

/-- `Range::from_slice` (`index.rs`): uniform-axis construction from raw
samples, validating count, endpoint order, and point-by-point closeness to
the endpoint-anchored arithmetic progression. -/
def Range.from_slice (s : List ℚ) : Except RangeError Range :=
  let n_values := s.length
  if n_values < 2 then .error .fewerThanTwoValues
  else
    let first := s.getD 0 0
    let step := (s.getD (n_values - 1) 0 - first) / ((n_values - 1 : ℕ) : ℚ)
    if step ≤ 0 then .error .notInIncreasingOrder
    else
      let range : Range := ⟨first, step, n_values⟩
      if (List.range n_values).all (fun i => is_close (range.value i) (s.getD i 0))
        then .ok range
        else .error .notLinear

/-- An exactly evenly spaced sample sequence `a, a + d, …, a + (n-1)·d`
(the claim's "strictly increasing evenly spaced sequences"). -/
def ap_list (a d : ℚ) (n : ℕ) : List ℚ :=
  (List.range n).map (fun i : ℕ => a + (i : ℚ) * d)

/-- `Range::contains` (`index.rs`): value containment with endpoint tolerance. -/
def Range.contains (r : Range) (value : ℚ) : Bool :=
  (decide (value ≥ r.first) && decide (value ≤ r.last))
    || is_close value r.first || is_close value r.last

/-- Index of the first grid point of `r` contained in `other` (the
`find` step of `Range::subrange_in`). -/
def Range.first_contained (r : Range) (other : Range) : Option ℕ :=
  (List.range r.n_values).find? (fun i => other.contains (r.value i))

/-- Number of grid points of `r` contained in `other`. -/
def Range.contained_count (r : Range) (other : Range) : ℕ :=
  ((List.range r.n_values).filter (fun i => other.contains (r.value i))).length

/-- `Range::subrange_in` (`index.rs`): the sub-axis of `self` starting at its
first grid point contained in `other`, keeping the same step, spanning all
later contained points; `none` when fewer than two points qualify. -/
def Range.subrange_in (r : Range) (other : Range) : Option Range :=
  match r.first_contained other with
  | none => none
  | some ifirst =>
    let n_values :=
      1 + ((List.range' (ifirst + 1) (r.n_values - (ifirst + 1))).filter
            (fun i => other.contains (r.value i))).length
    if 2 ≤ n_values then some ⟨r.value ifirst, r.step, n_values⟩ else none

/-- `<Range as LinearInterpolable>::idx_lin` (`index.rs`). -/
def Range.idx_lin (r : Range) (value : ℚ) : Except OutOfBoundsError IdxLin :=
  if is_close value r.first then .ok (.exact 0)
  else if is_close value r.last then .ok (.exact (r.n_values - 1))
  else if value < r.first ∨ value > r.last then .error ⟨value⟩
  else
    let iguess := (⌊(value - r.first) / r.step⌋).toNat
    if is_close value (r.value iguess) then .ok (.exact iguess)
    else
      match r.get (iguess + 1) with
      | some v => if is_close v value then .ok (.exact (iguess + 1))
                  else .ok (.between iguess (iguess + 1))
      | none => .ok (.between iguess (iguess + 1))

/-- `CustomRange` (`index.rs`): non-uniform axis holding its values. -/
structure CustomRange where
  values : List ℚ
  deriving DecidableEq

/-- `<CustomRange as LinearInterpolable>::idx_lin` (`index.rs`). The linear
scan `find_map(|(i, &v)| (v > value).then_some(i)) - 1` becomes
`List.findIdx - 1`; the code's `unwrap` cannot fire in the reachable branch. -/
def CustomRange.idx_lin (cr : CustomRange) (value : ℚ) :
    Except OutOfBoundsError IdxLin :=
  let ilast := cr.values.length - 1
  if is_close value (cr.values.getD 0 0) then .ok (.exact 0)
  else if is_close value (cr.values.getD ilast 0) then
    .ok (.exact (cr.values.length - 1))
  else if value < cr.values.getD 0 0 ∨ value > cr.values.getD ilast 0 then
    .error ⟨value⟩
  else
    let iguess := (cr.values.findIdx (fun v => decide (value < v))) - 1
    if is_close value (cr.values.getD iguess 0) then .ok (.exact iguess)
    else
      match cr.values.get? (iguess + 1) with
      | some v => if is_close v value then .ok (.exact (iguess + 1))
                  else .ok (.between iguess (iguess + 1))
      | none => .ok (.between iguess (iguess + 1))

/-- `LinearInterpolator` (`interp.rs`): precomputed left weight. -/
structure LinearInterpolator where
  left_coef : ℚ
  deriving DecidableEq

/-- `LinearInterpolator::new` (`interp.rs`):
`left_coef = (right_anchor - at) / (right_anchor - left_anchor)`. -/
def LinearInterpolator.new (left_anchor right_anchor atv : ℚ) :
    LinearInterpolator :=
  ⟨(right_anchor - atv) / (right_anchor - left_anchor)⟩

/-- `LinearInterpolator::interp_scalar` (`interp.rs`). -/
def LinearInterpolator.interp_scalar (lin : LinearInterpolator) (l r : ℚ) : ℚ :=
  l * lin.left_coef + r * (1 - lin.left_coef)

/-- Element-wise `LinearInterpolator::interp` over a 2D grid (`interp.rs`):
`left * coef` then `scaled_add(1 - coef, right)`. -/
def LinearInterpolator.interp2 (lin : LinearInterpolator) (l r : ℕ → ℕ → ℚ) :
    ℕ → ℕ → ℚ :=
  fun i j => l i j * lin.left_coef + (1 - lin.left_coef) * r i j

/-- Element-wise `LinearInterpolator::interp` over a 3D grid (`interp.rs`). -/
def LinearInterpolator.interp3 (lin : LinearInterpolator)
    (l r : ℕ → ℕ → ℕ → ℚ) : ℕ → ℕ → ℕ → ℚ :=
  fun i j k => l i j k * lin.left_coef + (1 - lin.left_coef) * r i j k

/-- `LinearStencil` (`interp.rs`). -/
inductive LinearStencil where
  | exact (i : ℕ) (value : ℚ)
  | between (ileft iright : ℕ) (lin : LinearInterpolator)
  deriving DecidableEq

/-- `LinearInterpolable::linear_stencil` (`index.rs`) for `Range`. -/
def Range.linear_stencil (r : Range) (value : ℚ) :
    Except OutOfBoundsError LinearStencil :=
  match r.idx_lin value with
  | .error e => .error e
  | .ok (.exact i) => .ok (.exact i value)
  | .ok (.between ileft iright) =>
    .ok (.between ileft iright
      (LinearInterpolator.new (r.value ileft) (r.value iright) value))

/-- `LinearStencil::apply_to` (`interp.rs`). -/
def LinearStencil.apply_to (st : LinearStencil) (arr : ℕ → ℚ) : ℚ :=
  match st with
  | .exact i _ => arr i
  | .between ileft iright lin => lin.interp_scalar (arr ileft) (arr iright)

/-- Array part of `LinearStencil::slice_view` on axis 0 (`interp.rs`): the
surviving window of the grid, re-indexed from 0. -/
def LinearStencil.slice0 (st : LinearStencil) (a : ℕ → ℕ → ℚ) : ℕ → ℕ → ℚ :=
  match st with
  | .exact i _ => fun k l => a (i + k) l
  | .between ileft _ _ => fun k l => a (ileft + k) l

/-- Array part of `LinearStencil::slice_view` on axis 1 (`interp.rs`). -/
def LinearStencil.slice1 (st : LinearStencil) (a : ℕ → ℕ → ℚ) : ℕ → ℕ → ℚ :=
  match st with
  | .exact i _ => fun k l => a k (i + l)
  | .between ileft _ _ => fun k l => a k (ileft + l)

/-- Stencil part of `LinearStencil::slice_view` (`interp.rs`): indices
re-based to the sliced window. -/
def LinearStencil.rebase (st : LinearStencil) : LinearStencil :=
  match st with
  | .exact _ v => .exact 0 v
  | .between _ _ lin => .between 0 1 lin

/-- `lin_interp_2d` (`interp.rs`): bilinear interpolation from two stencils,
collapsing exact hits to plain indexing. -/
def lin_interp_2d (x_st y_st : LinearStencil) (z : ℕ → ℕ → ℚ) : ℚ :=
  match x_st, y_st with
  | .exact i_x _, y_st => y_st.apply_to (fun j => z i_x j)
  | .between il ir lin, .exact i_y _ =>
    LinearStencil.apply_to (.between il ir lin) (fun i => z i i_y)
  | .between il ir lin, .between iyl iyr ylin =>
    ylin.interp_scalar
      (LinearStencil.apply_to (.between il ir lin) (fun i => z i iyl))
      (LinearStencil.apply_to (.between il ir lin) (fun i => z i iyr))

/-- Abscissa/ordinate quadruple for the centered cubic spline. -/
structure Four where
  x0 : ℚ
  x1 : ℚ
  x2 : ℚ
  x3 : ℚ
  deriving DecidableEq

/-- `low_level_spline` (`interp.rs`): centered Hermite cubic from
finite-difference slopes at the two inner points. -/
def low_level_spline (x y : Four) (atv : ℚ) : ℚ :=
  let dy_dx_left := (y.x2 - y.x0) / (x.x2 - x.x0)
  let dy_dx_right := (y.x3 - y.x1) / (x.x3 - x.x1)
  let a := dy_dx_left * (x.x2 - x.x1) - (y.x2 - y.x1)
  let b := -dy_dx_right * (x.x2 - x.x1) + (y.x2 - y.x1)
  let t := (atv - x.x1) / (x.x2 - x.x1)
  (1 - t) * y.x1 + t * y.x2 + t * (1 - t) * (a * (1 - t) + b * t)

/-- `SplineStencil` (`interp.rs`): exact hit or a 4-point centered window
starting at index `start` (the code's `r.start`, with `r = start..start+4`). -/
inductive SplineStencil where
  | exact (i : ℕ) (value : ℚ)
  | centered (start : ℕ) (xs : Four) (atv : ℚ)
  deriving DecidableEq

/-- The `iguess` index computed by `Range::spline_stencil` and
`Range::idx_lin` (`index.rs`): `((value - first) / step).floor() as usize`. -/
def Range.iguess_of (r : Range) (value : ℚ) : ℕ :=
  (⌊(value - r.first) / r.step⌋).toNat

/-- `Range::spline_stencil` (`index.rs`): 4-point window request; fails for
fewer than 4 points or a value outside `[axis[1], axis[n-2])`. -/
def Range.spline_stencil (r : Range) (value : ℚ) :
    Except OutOfBoundsError SplineStencil :=
  let lside := r.value 1
  let rside := r.value (r.n_values - 2)
  if r.n_values < 4 then .error ⟨value⟩
  else if value < lside ∨ value ≥ rside then .error ⟨value⟩
  else
    let iguess := r.iguess_of value
    .ok (.centered (iguess - 1)
      ⟨r.value (iguess - 1), r.value iguess, r.value (iguess + 1),
        r.value (iguess + 2)⟩ value)

/-- `ConstMetalTables` (`opacity_tables.rs`): opacity tables at constant
metallicity; `values` is the H-fraction × temperature × log-R grid. -/
structure ConstMetalTables where
  metallicity : ℚ
  h_fracs : Range
  log_temperature : Range
  log_r : Range
  values : ℕ → ℕ → ℕ → ℚ

/-- `RTempTable` (`opacity_tables.rs`): opacity leaf table at constant
metallicity and H fraction. -/
structure RTempTable where
  metallicity : ℚ
  h_frac : ℚ
  log_temperature : Range
  log_r : Range
  values : ℕ → ℕ → ℚ

/-- `ConstMetalTables::take_at_h_frac` (`opacity_tables.rs`): resolve a leaf
table, blending the two neighbouring full grids when the H fraction falls
between grid points. -/
def ConstMetalTables.take_at_h_frac (t : ConstMetalTables) (h_frac : ℚ) :
    Except OutOfBoundsError RTempTable :=
  match t.h_fracs.idx_lin h_frac with
  | .error e => .error e
  | .ok (.exact i) =>
    .ok ⟨t.metallicity, h_frac, t.log_temperature, t.log_r,
      fun a b => t.values i a b⟩
  | .ok (.between i j) =>
    let lin := LinearInterpolator.new (t.h_fracs.value i) (t.h_fracs.value j)
      h_frac
    .ok ⟨t.metallicity, h_frac, t.log_temperature, t.log_r,
      lin.interp2 (fun a b => t.values i a b) (fun a b => t.values j a b)⟩

/-- `RTempTable::at` (`opacity_tables.rs`): direct bilinear query. -/
def RTempTable.query (t : RTempTable) (log_temperature log_r : ℚ) :
    Except OutOfBoundsError ℚ :=
  match t.log_temperature.linear_stencil log_temperature with
  | .error e => .error e
  | .ok logt_st =>
    match t.log_r.linear_stencil log_r with
    | .error e => .error e
    | .ok logr_st => .ok (lin_interp_2d logt_st logr_st t.values)

/-- `ConstMetalTables::at` (`opacity_tables.rs`): combined query slicing
minimal windows out of the two neighbouring H-fraction grids, blending the
windows, then bilinearly interpolating the blended window. -/
def ConstMetalTables.query (t : ConstMetalTables)
    (h_frac log_temperature log_r : ℚ) : Except OutOfBoundsError ℚ :=
  match t.log_temperature.linear_stencil log_temperature with
  | .error e => .error e
  | .ok logt_st =>
    match t.log_r.linear_stencil log_r with
    | .error e => .error e
    | .ok logr_st =>
      match t.h_fracs.linear_stencil h_frac with
      | .error e => .error e
      | .ok (.exact i _) =>
        .ok (lin_interp_2d logt_st logr_st (fun a b => t.values i a b))
      | .ok (.between ileft iright lin) =>
        let ltable0 := fun a b => t.values ileft a b
        let rtable0 := fun a b => t.values iright a b
        let ltable1 := logt_st.slice0 ltable0
        let rtable1 := logt_st.slice0 rtable0
        let logt_st' := logt_st.rebase
        let ltable2 := logr_st.slice1 ltable1
        let rtable2 := logr_st.slice1 rtable1
        let logr_st' := logr_st.rebase
        let table := lin.interp2 ltable2 rtable2
        .ok (lin_interp_2d logt_st' logr_st' table)

/-- The claim's two-step path: resolve a leaf table with `take_at_h_frac`,
then query it with `RTempTable::at`. -/
def ConstMetalTables.resolve_then_query (t : ConstMetalTables)
    (h_frac log_temperature log_r : ℚ) : Except OutOfBoundsError ℚ :=
  match t.take_at_h_frac h_frac with
  | .error e => .error e
  | .ok leaf => leaf.query log_temperature log_r

/-- Success test for an `Except` result. -/
def exceptOk {ε α : Type} : Except ε α → Bool
  | .ok _ => true
  | .error _ => false

/-- A byte of the raw binary table streams. -/
def Byte := Fin 256
  deriving DecidableEq

instance (n : ℕ) : OfNat Byte n := ⟨Fin.ofNat n⟩

/-- I/O error kinds surfaced by `read_fort_record` (`fort_unfmt.rs`):
`read_exact` hitting the end of the stream gives `UnexpectedEof`, the two
explicit size checks give `InvalidData` carrying the expected and actual
sizes from the error message. -/
inductive IoError where
  | unexpectedEof
  | invalidData (expected actual : ℕ)
  deriving DecidableEq

instance exceptDecEq {ε α : Type} [DecidableEq ε] [DecidableEq α] :
    DecidableEq (Except ε α)
  | .error e, .error e' =>
    if h : e = e' then .isTrue (by rw [h])
    else .isFalse (fun hc => h (by injection hc))
  | .error _, .ok _ => .isFalse (fun hc => Except.noConfusion hc)
  | .ok _, .error _ => .isFalse (fun hc => Except.noConfusion hc)
  | .ok a, .ok a' =>
    if h : a = a' then .isTrue (by rw [h])
    else .isFalse (fun hc => h (by injection hc))

/-- Little-endian value of a byte list (`u32::from_le_bytes` /
`f64::from_le_bytes`; `f64` payloads are modelled by their bit patterns). -/
def leNat (bs : List Byte) : ℕ := bs.foldr (fun b acc => b.val + 256 * acc) 0

/-- `Read::read_exact` into a `k`-byte buffer (`fort_unfmt.rs`): takes `k`
bytes off the stream or fails with an end-of-file error. -/
def readBytes (k : ℕ) (s : List Byte) : Except IoError (List Byte × List Byte) :=
  if s.length < k then .error .unexpectedEof else .ok (s.take k, s.drop k)

/-- Reading `count` elements of `elt_size` bytes each
(`FromRawBinary::read_in` in the loop of `read_fort_record`). -/
def readElems (elt_size : ℕ) : ℕ → List Byte → Except IoError (List ℕ × List Byte)
  | 0, s => .ok ([], s)
  | count + 1, s =>
    match readBytes elt_size s with
    | .error e => .error e
    | .ok (bs, s1) =>
      match readElems elt_size count s1 with
      | .error e => .error e
      | .ok (vs, s2) => .ok (leNat bs :: vs, s2)

/-- `read_fort_record` (`fort_unfmt.rs`) over a destination buffer of `n`
elements of `elt_size` bytes: leading 4-byte length checked against
`n * elt_size`, `n` little-endian elements, trailing 4-byte length checked
against the leading one. Returns the decoded buffer and the rest of the
stream. -/
def read_fort_record (elt_size n : ℕ) (s : List Byte) :
    Except IoError (List ℕ × List Byte) :=
  match readBytes 4 s with
  | .error e => .error e
  | .ok (pre_bs, s1) =>
    let pre := leNat pre_bs
    if pre ≠ n * elt_size then .error (.invalidData (n * elt_size) pre)
    else
      match readElems elt_size n s1 with
      | .error e => .error e
      | .ok (vs, s2) =>
        match readBytes 4 s2 with
        | .error e => .error e
        | .ok (post_bs, s3) =>
          let post := leNat post_bs
          if post ≠ pre then .error (.invalidData pre post)
          else .ok (vs, s3)

/-- Little-endian encoding of `v` on `k` bytes (inverse of `leNat` for
`v < 256 ^ k`). -/
def leBytes : ℕ → ℕ → List Byte
  | 0, _ => []
  | k + 1, v => ⟨v % 256, Nat.mod_lt v (by norm_num)⟩ :: leBytes k (v / 256)

/-- Concatenated little-endian encodings of a list of element values. -/
def elemsBytes (elt_size : ℕ) (vals : List ℕ) : List Byte :=
  vals.foldr (fun v acc => leBytes elt_size v ++ acc) []

/-- A well-formed Fortran unformatted record for `vals`: length header,
payload, length trailer (`fort_unfmt.rs` record convention). -/
def recordBytes (elt_size : ℕ) (vals : List ℕ) : List Byte :=
  leBytes 4 (vals.length * elt_size) ++ elemsBytes elt_size vals
    ++ leBytes 4 (vals.length * elt_size)

/-- A small concrete opacity table at constant metallicity, used to witness
the composition-order consistency property on a fully interpolated query. -/
def c1_table : ConstMetalTables :=
  ⟨1 / 50, ⟨0, 1, 2⟩, ⟨0, 1, 3⟩, ⟨0, 1, 3⟩,
    fun i t r => (i : ℚ) + 2 * (t : ℚ) + 4 * (r : ℚ)⟩

/-- `StateVar` (`eos_tables.rs`): the closed set of requested outputs. -/
inductive StateVar where
  | density
  | pressure
  | pgas
  | temperature
  | dPresDDensEcst
  | dPresDEnerDcst
  | dTempDDensEcst
  | dTempDEnerDcst
  | entropy
  | dTempDPresScst
  | gamma1
  | gamma
  deriving DecidableEq

/-- The EOS leaf table a `CstCompoState` is built against. Its 2D spline
query is abstracted as an arbitrary function of `(log_energy, log_volume,
var)`: the state-layer claims concern only which derived coordinates are
computed and passed to it. -/
structure VolumeEnergyTable where
  query : ℚ → ℚ → StateVar → ℚ

/-- The EOS table collection a `CstMetalState` is built against, with its
metallicity and its combined query abstracted as an arbitrary function of
`(h_frac, log_energy, log_volume, var)`. -/
structure MetalTables where
  metallicity : ℚ
  query : ℚ → ℚ → ℚ → StateVar → ℚ

/-- `from_de_to_logdve` (`state.rs`): element-wise derived coordinates
`log_density = log10 density`, `log_energy = log10 energy`,
`log_volume = 20 + log_density - 0.7 * log_energy`. The machine `log10` is
the explicit parameter `log10`. -/
def from_de_to_logdve (log10 : ℚ → ℚ) (density energy : List ℚ) :
    List ℚ × List ℚ × List ℚ :=
  let log_density := density.map log10
  let log_energy := energy.map log10
  let log_volume :=
    List.zipWith (fun loge logd => 20 + logd - (7 / 10) * loge)
      log_energy log_density
  (log_density, log_volume, log_energy)

/-- `CstCompoState` (`state.rs`). -/
structure CstCompoState where
  log_density : List ℚ
  log_volume : List ℚ
  log_energy : List ℚ
  table : VolumeEnergyTable

/-- `CstCompoState::new` (`state.rs`). -/
def CstCompoState.new (log10 : ℚ → ℚ) (table : VolumeEnergyTable)
    (density energy : List ℚ) : CstCompoState :=
  let dve := from_de_to_logdve log10 density energy
  ⟨dve.1, dve.2.1, dve.2.2, table⟩

/-- `CstCompoState::compute` (`state.rs`): element-wise table query at the
stored derived coordinates. -/
def CstCompoState.compute (s : CstCompoState) (var : StateVar) : List ℚ :=
  List.zipWith (fun logv loge => s.table.query loge logv var)
    s.log_volume s.log_energy

/-- `CstMetalState` (`state.rs`). -/
structure CstMetalState where
  h_frac : List ℚ
  log_density : List ℚ
  log_volume : List ℚ
  log_energy : List ℚ
  table : MetalTables

/-- `CstMetalState::new` (`state.rs`). -/
def CstMetalState.new (log10 : ℚ → ℚ) (table : MetalTables)
    (he_frac density energy : List ℚ) : CstMetalState :=
  let h_frac := he_frac.map (fun he => 1 - he - table.metallicity)
  let dve := from_de_to_logdve log10 density energy
  ⟨h_frac, dve.1, dve.2.1, dve.2.2, table⟩

/-- `CstMetalState::set_state` (`state.rs`): recompute the four derived
arrays in place; the table field is untouched. -/
def CstMetalState.set_state (s : CstMetalState) (log10 : ℚ → ℚ)
    (he_frac density energy : List ℚ) : CstMetalState :=
  let dve := from_de_to_logdve log10 density energy
  { s with
    h_frac := he_frac.map (fun he => 1 - he - s.table.metallicity)
    log_density := dve.1
    log_volume := dve.2.1
    log_energy := dve.2.2 }

/-- `CstMetalState::compute` (`state.rs`). -/
def CstMetalState.compute (s : CstMetalState) (var : StateVar) : List ℚ :=
  List.zipWith₃ (fun logv loge h_frac => s.table.query h_frac loge logv var)
    s.log_volume s.log_energy s.h_frac

/-! Helper lemmas. -/

theorem compute_new_eq (log10 : ℚ → ℚ) (tbl : VolumeEnergyTable) :
    ∀ (d e : List ℚ) (var : StateVar),
      (CstCompoState.new log10 tbl d e).compute var =
        List.zipWith
          (fun dd ee =>
            tbl.query (log10 ee) (20 + log10 dd - (7 / 10) * log10 ee) var)
          d e := by
  intro d
  induction d with
  | nil =>
    intro e var
    cases e <;>
      simp [CstCompoState.new, CstCompoState.compute, from_de_to_logdve]
  | cons dd ds ih =>
    intro e var
    cases e with
    | nil => simp [CstCompoState.new, CstCompoState.compute, from_de_to_logdve]
    | cons ee es =>
      have h := ih es var
      simpa [CstCompoState.new, CstCompoState.compute, from_de_to_logdve]
        using h

theorem log_volume_new_eq (log10 : ℚ → ℚ) (tbl : VolumeEnergyTable) :
    ∀ (d e : List ℚ),
      (CstCompoState.new log10 tbl d e).log_volume =
        List.zipWith (fun dd ee => 20 + log10 dd - (7 / 10) * log10 ee) d e := by
  intro d
  induction d with
  | nil =>
    intro e
    cases e <;> simp [CstCompoState.new, from_de_to_logdve]
  | cons dd ds ih =>
    intro e
    cases e with
    | nil => simp [CstCompoState.new, from_de_to_logdve]
    | cons ee es =>
      have h := ih es
      simpa [CstCompoState.new, from_de_to_logdve] using h

theorem is_close_iff {a b : ℚ} : is_close a b = true ↔ |a - b| ≤ eps := by
  simp [is_close]

theorem is_close_false_iff {a b : ℚ} : is_close a b = false ↔ eps < |a - b| := by
  simp [is_close]

theorem eps_pos : (0 : ℚ) < eps := by norm_num [eps]

theorem Range.first_le_last (r : Range) (hstep : 0 < r.step) :
    r.first ≤ r.last := by
  have h : (0 : ℚ) ≤ ((r.n_values - 1 : ℕ) : ℚ) * r.step :=
    mul_nonneg (by positivity) hstep.le
  simp only [Range.last, Range.value]
  linarith

theorem sorted_getD_lt (l : List ℚ) (hsort : l.Pairwise (· < ·))
    (hlen : 2 ≤ l.length) : l.getD 0 0 < l.getD (l.length - 1) 0 := by
  have h0 : 0 < l.length := by omega
  have h1 : l.length - 1 < l.length := by omega
  rw [l.getD_eq_get 0 h0, l.getD_eq_get 0 h1]
  exact List.pairwise_iff_get.mp hsort ⟨0, h0⟩ ⟨l.length - 1, h1⟩
    (by simp; omega)

theorem Range.contains_iff (b : Range) (hb : 0 < b.step) (v : ℚ) :
    b.contains v = true ↔ b.first - eps ≤ v ∧ v ≤ b.last + eps := by
  have hfl := b.first_le_last hb
  rw [Range.contains, Bool.or_eq_true, Bool.or_eq_true, Bool.and_eq_true,
    decide_eq_true_eq, decide_eq_true_eq, is_close_iff, is_close_iff]
  constructor
  · rintro ((⟨h1, h2⟩ | h) | h)
    · exact ⟨by linarith [eps_pos], by linarith [eps_pos]⟩
    · rw [abs_le] at h
      exact ⟨by linarith, by linarith⟩
    · rw [abs_le] at h
      exact ⟨by linarith, by linarith⟩
  · rintro ⟨h1, h2⟩
    by_cases hv1 : v < b.first
    · exact Or.inl (Or.inr (abs_le.mpr ⟨by linarith, by linarith⟩))
    · by_cases hv2 : b.last < v
      · exact Or.inr (abs_le.mpr ⟨by linarith, by linarith⟩)
      · exact Or.inl (Or.inl ⟨by linarith, by linarith⟩)

theorem Range.value_le_value (r : Range) (hstep : 0 < r.step) {i j : ℕ}
    (h : i ≤ j) : r.value i ≤ r.value j := by
  simp only [Range.value]
  have hc : (i : ℚ) ≤ (j : ℚ) := Nat.cast_le.mpr h
  have := mul_le_mul_of_nonneg_right hc hstep.le
  linarith

theorem find?_range'_spec (p : ℕ → Bool) :
    ∀ (len s i : ℕ), (List.range' s len).find? p = some i →
      s ≤ i ∧ i < s + len ∧ p i = true ∧
        ∀ j, s ≤ j → j < i → p j = false := by
  intro len
  induction len with
  | zero =>
    intro s i h
    simp [List.range'] at h
  | succ m ih =>
    intro s i h
    rw [List.range'_succ] at h
    by_cases hps : p s = true
    · rw [List.find?_cons_of_pos _ hps] at h
      have hsi : s = i := by injection h
      subst hsi
      exact ⟨le_refl s, by omega, hps, fun j hj1 hj2 => by omega⟩
    · have hps' : p s = false := by
        cases hv : p s
        · rfl
        · exact absurd hv hps
      rw [List.find?_cons_of_neg _ (by simp [hps'])] at h
      obtain ⟨h1, h2, h3, h4⟩ := ih (s + 1) i h
      refine ⟨by omega, by omega, h3, fun j hj1 hj2 => ?_⟩
      rcases eq_or_lt_of_le hj1 with hj | hj
      · rw [← hj]; exact hps'
      · exact h4 j (by omega) hj2

theorem exists_max_p (p : ℕ → Bool) :
    ∀ (n i0 : ℕ), i0 < n → p i0 = true →
      ∃ j0, j0 < n ∧ p j0 = true ∧
        ∀ i, j0 < i → i < n → p i = false := by
  intro n
  induction n with
  | zero =>
    intro i0 h hp
    omega
  | succ m ih =>
    intro i0 h hp
    by_cases hm : p m = true
    · exact ⟨m, by omega, hm, fun i h1 h2 => by omega⟩
    · have hm' : p m = false := by
        cases hv : p m
        · rfl
        · exact absurd hv hm
      have hi0m : i0 < m := by
        rcases Nat.lt_succ_iff_lt_or_eq.mp h with h' | h'
        · exact h'
        · subst h'; exact absurd hp hm
      obtain ⟨j0, hj1, hj2, hj3⟩ := ih i0 hi0m hp
      refine ⟨j0, by omega, hj2, fun i h1 h2 => ?_⟩
      rcases Nat.lt_succ_iff_lt_or_eq.mp h2 with h' | h'
      · exact hj3 i h1 h'
      · subst h'; exact hm'

theorem length_filter_range_window (i0 j0 : ℕ) :
    ∀ n : ℕ,
      ((List.range n).filter (fun i => decide (i0 ≤ i ∧ i ≤ j0))).length =
        min (j0 + 1) n - i0 := by
  intro n
  induction n with
  | zero => simp
  | succ m ih =>
    rw [List.range_succ, List.filter_append, List.length_append]
    by_cases hm : i0 ≤ m ∧ m ≤ j0
    · have h1 : (([m].filter (fun i => decide (i0 ≤ i ∧ i ≤ j0)))).length = 1 :=
        by simp [hm]
      rw [ih, h1]
      omega
    · have h1 : (([m].filter (fun i => decide (i0 ≤ i ∧ i ≤ j0)))).length = 0 :=
        by simp [hm]
      rw [ih, h1]
      omega

theorem length_filter_range'_le (j0 : ℕ) :
    ∀ (len s : ℕ),
      ((List.range' s len).filter (fun i => decide (i ≤ j0))).length =
        min len (j0 + 1 - s) := by
  intro len
  induction len with
  | zero =>
    intro s
    simp
  | succ m ih =>
    intro s
    rw [List.range'_succ, List.filter_cons]
    by_cases hs : s ≤ j0
    · rw [if_pos (by simpa using hs)]
      simp only [List.length_cons]
      rw [ih]
      omega
    · rw [if_neg (by simpa using hs)]
      rw [ih]
      omega

theorem length_leBytes (k v : ℕ) : (leBytes k v).length = k := by
  induction k generalizing v with
  | zero => rfl
  | succ m ih => simp [leBytes, ih]

theorem leNat_leBytes (k v : ℕ) (h : v < 256 ^ k) :
    leNat (leBytes k v) = v := by
  induction k generalizing v with
  | zero =>
    simp [leBytes, leNat]
    omega
  | succ m ih =>
    have hdiv : v / 256 < 256 ^ m := by
      rw [Nat.div_lt_iff_lt_mul (by norm_num)]
      calc v < 256 ^ (m + 1) := h
      _ = 256 ^ m * 256 := by ring
    simp only [leBytes, leNat, List.foldr_cons]
    have ih' := ih (v / 256) hdiv
    simp only [leNat] at ih'
    rw [ih']
    omega

theorem leNat_lt (bs : List Byte) : leNat bs < 256 ^ bs.length := by
  induction bs with
  | nil => simp [leNat]
  | cons b t ih =>
    simp only [leNat, List.foldr_cons, List.length_cons]
    simp only [leNat] at ih
    have hb : b.val < 256 := b.isLt
    calc b.val + 256 * List.foldr (fun b acc => b.val + 256 * acc) 0 t
        < 256 + 256 * List.foldr (fun b acc => b.val + 256 * acc) 0 t := by
          omega
      _ ≤ 256 + 256 * (256 ^ t.length - 1) := by
          have : List.foldr (fun b acc => b.val + 256 * acc) 0 t ≤
              256 ^ t.length - 1 := by omega
          omega
      _ ≤ 256 ^ (t.length + 1) := by
          have h1 : 1 ≤ 256 ^ t.length := Nat.one_le_two_pow.trans
            (Nat.pow_le_pow_left (by norm_num) t.length)
          rw [pow_succ]
          omega

theorem leBytes_leNat (bs : List Byte) :
    leBytes bs.length (leNat bs) = bs := by
  induction bs with
  | nil => rfl
  | cons b t ih =>
    simp only [leNat, List.foldr_cons, List.length_cons, leBytes]
    have hb : b.val < 256 := b.isLt
    have hmod : (b.val + 256 * List.foldr (fun b acc => b.val + 256 * acc) 0 t)
        % 256 = b.val := by omega
    have hdiv : (b.val + 256 * List.foldr (fun b acc => b.val + 256 * acc) 0 t)
        / 256 = List.foldr (fun b acc => b.val + 256 * acc) 0 t := by omega
    congr 1
    · exact Fin.ext hmod
    · rw [hdiv]
      simpa [leNat] using ih

theorem readBytes_append (bs rest : List Byte) (k : ℕ) (h : bs.length = k) :
    readBytes k (bs ++ rest) = .ok (bs, rest) := by
  rw [readBytes, if_neg (by simp [h])]
  subst h
  rw [List.take_left, List.drop_left]

theorem readBytes_inv (k : ℕ) (s bs s' : List Byte)
    (h : readBytes k s = .ok (bs, s')) :
    s = bs ++ s' ∧ bs.length = k := by
  rw [readBytes] at h
  by_cases hlen : s.length < k
  · rw [if_pos hlen] at h
    cases h
  · rw [if_neg hlen] at h
    injection h with h
    injection h with h1 h2
    subst h1
    subst h2
    exact ⟨(List.take_append_drop k s).symm,
      List.length_take_of_le (by omega)⟩

theorem readElems_encode (elt_size : ℕ) (vals : List ℕ) (rest : List Byte)
    (h : ∀ v ∈ vals, v < 256 ^ elt_size) :
    readElems elt_size vals.length (elemsBytes elt_size vals ++ rest) =
      .ok (vals, rest) := by
  induction vals with
  | nil => rfl
  | cons v t ih =>
    have hv := h v (List.mem_cons_self v t)
    have ih' := ih (fun w hw => h w (List.mem_cons_of_mem v hw))
    have hstream : elemsBytes elt_size (v :: t) ++ rest =
        leBytes elt_size v ++ (elemsBytes elt_size t ++ rest) := by
      simp [elemsBytes, List.append_assoc]
    have hrb : readBytes elt_size
        (leBytes elt_size v ++ (elemsBytes elt_size t ++ rest)) =
        .ok (leBytes elt_size v, elemsBytes elt_size t ++ rest) :=
      readBytes_append _ _ _ (length_leBytes _ _)
    rw [List.length_cons, hstream]
    simp only [readElems, hrb, ih', leNat_leBytes _ _ hv]

theorem readElems_inv (elt_size : ℕ) :
    ∀ (n : ℕ) (s : List Byte) (vs : List ℕ) (s' : List Byte),
      readElems elt_size n s = .ok (vs, s') →
      vs.length = n ∧ (∀ v ∈ vs, v < 256 ^ elt_size) ∧
        s = elemsBytes elt_size vs ++ s' := by
  intro n
  induction n with
  | zero =>
    intro s vs s' h
    simp only [readElems] at h
    injection h with h
    injection h with h1 h2
    subst h1
    subst h2
    exact ⟨rfl, by simp, by simp [elemsBytes]⟩
  | succ m ih =>
    intro s vs s' h
    simp only [readElems] at h
    cases hrb : readBytes elt_size s with
    | error e =>
      simp only [hrb] at h
      exact Except.noConfusion h
    | ok p =>
      obtain ⟨bs, s1⟩ := p
      simp only [hrb] at h
      cases hre : readElems elt_size m s1 with
      | error e =>
        simp only [hre] at h
        exact Except.noConfusion h
      | ok q =>
        obtain ⟨vs0, s2⟩ := q
        simp only [hre] at h
        injection h with h
        injection h with h1 h2
        subst h1
        subst h2
        obtain ⟨hs, hbs⟩ := readBytes_inv elt_size s bs s1 hrb
        obtain ⟨hl, hv, he⟩ := ih s1 vs0 s2 hre
        refine ⟨by simp [hl], ?_, ?_⟩
        · intro v hv'
          rcases List.mem_cons.mp hv' with hv' | hv'
          · subst hv'
            have hlt := leNat_lt bs
            rw [hbs] at hlt
            exact hlt
          · exact hv v hv'
        · have hb2 : leBytes elt_size (leNat bs) = bs := by
            rw [← hbs]
            exact leBytes_leNat bs
          rw [hs, he]
          simp [elemsBytes, hb2, List.append_assoc]

theorem idx_lin_between (r : Range) (v : ℚ) (i j : ℕ)
    (h : r.idx_lin v = .ok (.between i j)) : j = i + 1 := by
  simp only [Range.idx_lin] at h
  split_ifs at h <;> try simp at h
  cases hg : r.get ((⌊(v - r.first) / r.step⌋).toNat + 1) with
  | none =>
    simp only [hg] at h
    injection h with h
    injection h with h5 h6
    omega
  | some w =>
    simp only [hg] at h
    split_ifs at h with h5
    · simp at h
    · injection h with h
      injection h with h6 h7
      omega

theorem linear_stencil_shape (r : Range) (v : ℚ) (st : LinearStencil)
    (h : r.linear_stencil v = .ok st) :
    (∃ i, st = .exact i v) ∨
      ∃ i, st = .between i (i + 1)
        (LinearInterpolator.new (r.value i) (r.value (i + 1)) v) := by
  cases hidx : r.idx_lin v with
  | error e =>
    have heq : r.linear_stencil v = .error e := by
      unfold Range.linear_stencil
      rw [hidx]
    rw [heq] at h
    exact Except.noConfusion h
  | ok idx =>
    cases idx with
    | exact i =>
      have heq : r.linear_stencil v = .ok (.exact i v) := by
        unfold Range.linear_stencil
        rw [hidx]
      rw [heq] at h
      injection h with h
      exact Or.inl ⟨i, h.symm⟩
    | between i j =>
      have hj : j = i + 1 := idx_lin_between r v i j hidx
      subst hj
      have heq : r.linear_stencil v = .ok (.between i (i + 1)
          (LinearInterpolator.new (r.value i) (r.value (i + 1)) v)) := by
        unfold Range.linear_stencil
        rw [hidx]
      rw [heq] at h
      injection h with h
      exact Or.inr ⟨i, h.symm⟩

theorem lin_interp_2d_blend_slice (st_t st_r : LinearStencil)
    (c : LinearInterpolator) (L R : ℕ → ℕ → ℚ)
    (ht : (∃ i v, st_t = .exact i v) ∨
      ∃ i l, st_t = .between i (i + 1) l)
    (hr : (∃ i v, st_r = .exact i v) ∨
      ∃ i l, st_r = .between i (i + 1) l) :
    lin_interp_2d st_t.rebase st_r.rebase
        (c.interp2 (st_r.slice1 (st_t.slice0 L))
          (st_r.slice1 (st_t.slice0 R))) =
      lin_interp_2d st_t st_r (c.interp2 L R) := by
  obtain ⟨i, v, rfl⟩ | ⟨i, l, rfl⟩ := ht <;>
    obtain ⟨i', v', rfl⟩ | ⟨i', l', rfl⟩ := hr <;>
      simp [lin_interp_2d, LinearStencil.rebase, LinearStencil.slice0,
        LinearStencil.slice1, LinearStencil.apply_to,
        LinearInterpolator.interp2, LinearInterpolator.interp_scalar]

/-! Claim theorems. -/

/-- Claim C4 counterexample: the uniform axis `first = 0`, `step = 1e-13`,
`n_values = 2` is valid (positive step, two points), yet `idx_lin` at its
last point returns `Exact 0` instead of `Exact (n-1) = Exact 1`, because the
whole axis fits inside the `1e-12` endpoint tolerance and the first-endpoint
test wins. -/
theorem claim_C4_counterexample :
    (0 : ℚ) < (1 / 10 ^ 13 : ℚ) ∧
      (Range.mk 0 (1 / 10 ^ 13) 2).last = 1 / 10 ^ 13 ∧
      Range.idx_lin ⟨0, 1 / 10 ^ 13, 2⟩ (1 / 10 ^ 13) = .ok (.exact 0) ∧
      IdxLin.exact 0 ≠ IdxLin.exact (2 - 1) := by
  refine ⟨by norm_num, ?_, ?_, by simp⟩
  · norm_num [Range.last, Range.value]
  · norm_num [Range.idx_lin, is_close, eps, Range.value, Range.last, abs_le]

/-- Claim C4 (amended): for every valid axis, uniform or non-uniform, any
value within tolerance of the first point classifies as `Exact 0`; any value
within tolerance of the last point — and not within tolerance of the first,
which takes precedence and can also capture the last point when the whole
axis is narrower than the tolerance — classifies as `Exact (n-1)` (in
particular `idx_lin first = Exact 0` always, and `idx_lin last = Exact (n-1)`
whenever the endpoints are more than the tolerance apart); and any value
strictly outside `[first, last]` by more than the tolerance fails with an
`OutOfBoundsError` carrying the offending value, never a clamped or
extrapolated classification. -/
theorem claim_C4_amended (r : Range) (cr : CustomRange) (v1 v2 v3 w1 w2 w3 : ℚ)
    (hstep : 0 < r.step)
    (hsort : cr.values.Pairwise (· < ·))
    (hclen : 2 ≤ cr.values.length) :
    (is_close v1 r.first = true → r.idx_lin v1 = .ok (.exact 0)) ∧
      (is_close v2 r.last = true → is_close v2 r.first = false →
        r.idx_lin v2 = .ok (.exact (r.n_values - 1))) ∧
      (v3 < r.first - eps ∨ r.last + eps < v3 → r.idx_lin v3 = .error ⟨v3⟩) ∧
      (is_close w1 (cr.values.getD 0 0) = true →
        cr.idx_lin w1 = .ok (.exact 0)) ∧
      (is_close w2 (cr.values.getD (cr.values.length - 1) 0) = true →
        is_close w2 (cr.values.getD 0 0) = false →
        cr.idx_lin w2 = .ok (.exact (cr.values.length - 1))) ∧
      (w3 < cr.values.getD 0 0 - eps ∨
          cr.values.getD (cr.values.length - 1) 0 + eps < w3 →
        cr.idx_lin w3 = .error ⟨w3⟩) := by
  have hfl : r.first ≤ r.last := r.first_le_last hstep
  have hcr : cr.values.getD 0 0 < cr.values.getD (cr.values.length - 1) 0 :=
    sorted_getD_lt cr.values hsort hclen
  refine ⟨?_, ?_, ?_, ?_, ?_, ?_⟩
  · intro h
    simp [Range.idx_lin, h]
  · intro h2 h1
    simp [Range.idx_lin, h1, h2]
  · intro h
    have hc1 : is_close v3 r.first = false := by
      rw [is_close_false_iff, lt_abs]
      rcases h with h | h
      · right; linarith
      · left; linarith
    have hc2 : is_close v3 r.last = false := by
      rw [is_close_false_iff, lt_abs]
      rcases h with h | h
      · right; linarith
      · left; linarith
    have hor : v3 < r.first ∨ v3 > r.last := by
      rcases h with h | h
      · left; linarith [eps_pos]
      · right; linarith [eps_pos]
    simp [Range.idx_lin, hc1, hc2, hor]
  · intro h
    simp only [List.getD_eq_getElem?_getD] at h
    simp [CustomRange.idx_lin, h]
  · intro h2 h1
    simp only [List.getD_eq_getElem?_getD] at h1 h2
    simp [CustomRange.idx_lin, h1, h2]
  · intro h
    have hc1 : is_close w3 (cr.values.getD 0 0) = false := by
      rw [is_close_false_iff, lt_abs]
      rcases h with h | h
      · right; linarith
      · left; linarith
    have hc2 : is_close w3 (cr.values.getD (cr.values.length - 1) 0) = false := by
      rw [is_close_false_iff, lt_abs]
      rcases h with h | h
      · right; linarith
      · left; linarith
    have hor : w3 < cr.values.getD 0 0 ∨
        w3 > cr.values.getD (cr.values.length - 1) 0 := by
      rcases h with h | h
      · left; linarith [eps_pos]
      · right; linarith [eps_pos]
    simp only [List.getD_eq_getElem?_getD] at hc1 hc2 hor
    simp [CustomRange.idx_lin, hc1, hc2, hor]

/-- Claim C4 witness: endpoint classifications and out-of-bounds rejection at
a concrete uniform axis `0, 1, 2, 3` and non-uniform axis `0, 1, 5`. -/
theorem claim_C4_witness :
    ((0 : ℚ) < 1 ∧ ([(0 : ℚ), 1, 5] : List ℚ).Pairwise (· < ·) ∧
        2 ≤ ([(0 : ℚ), 1, 5] : List ℚ).length) ∧
      ((is_close 0 (Range.mk 0 1 4).first = true →
          Range.idx_lin ⟨0, 1, 4⟩ 0 = .ok (.exact 0)) ∧
        (is_close 3 (Range.mk 0 1 4).last = true →
          is_close 3 (Range.mk 0 1 4).first = false →
          Range.idx_lin ⟨0, 1, 4⟩ 3 = .ok (.exact ((Range.mk 0 1 4).n_values - 1))) ∧
        ((7 : ℚ) < (Range.mk 0 1 4).first - eps ∨
            (Range.mk 0 1 4).last + eps < 7 →
          Range.idx_lin ⟨0, 1, 4⟩ 7 = .error ⟨7⟩) ∧
        (is_close 0 (([(0 : ℚ), 1, 5] : List ℚ).getD 0 0) = true →
          CustomRange.idx_lin ⟨[0, 1, 5]⟩ 0 = .ok (.exact 0)) ∧
        (is_close 5
            (([(0 : ℚ), 1, 5] : List ℚ).getD
              (([(0 : ℚ), 1, 5] : List ℚ).length - 1) 0) = true →
          is_close 5 (([(0 : ℚ), 1, 5] : List ℚ).getD 0 0) = false →
          CustomRange.idx_lin ⟨[0, 1, 5]⟩ 5 =
            .ok (.exact (([(0 : ℚ), 1, 5] : List ℚ).length - 1))) ∧
        ((9 : ℚ) < ([(0 : ℚ), 1, 5] : List ℚ).getD 0 0 - eps ∨
            ([(0 : ℚ), 1, 5] : List ℚ).getD
                (([(0 : ℚ), 1, 5] : List ℚ).length - 1) 0 + eps < 9 →
          CustomRange.idx_lin ⟨[0, 1, 5]⟩ 9 = .error ⟨9⟩)) :=
  ⟨⟨by norm_num, by norm_num, by norm_num⟩,
    claim_C4_amended ⟨0, 1, 4⟩ ⟨[0, 1, 5]⟩ 0 3 7 0 5 9
      (by show (0 : ℚ) < 1; norm_num) (by norm_num) (by norm_num)⟩

/-- Claim C2 counterexample: on the uniform axis `0, 1, ..., 5` (six points),
`spline_stencil` at `axis[n-2] = 4` fails with an out-of-bounds error rather
than returning an `Exact` classification, and at `axis[1] = 1` it returns the
4-point window `[0, 1, 2, 3]` rather than an `Exact` classification. -/
theorem claim_C2_counterexample :
    Range.spline_stencil ⟨0, 1, 6⟩ 4 = .error ⟨4⟩ ∧
      Range.spline_stencil ⟨0, 1, 6⟩ 1 = .ok (.centered 0 ⟨0, 1, 2, 3⟩ 1) := by
  constructor
  · norm_num [Range.spline_stencil, Range.value]
  · norm_num [Range.spline_stencil, Range.value, Range.iguess_of]

/-- Claim C2 (amended): for a uniform axis with positive step,
`spline_stencil` fails with an out-of-bounds error when the axis has fewer
than 4 points; for values in the half-open interval `[axis[1], axis[n-2])`
it returns the 4-point window `[i-1, i, i+1, i+2]` (with
`i = floor((value - first) / step)`, so `axis[i] <= value < axis[i+1]`:
the middle interval brackets the value, with `value = axis[1]` included as
the left edge of the first window); and for values below `axis[1]` or at or
above `axis[n-2]` — including a value exactly equal to `axis[n-2]` — it
fails with an out-of-bounds error carrying the value. No `Exact`
classification is ever produced. -/
theorem claim_C2_amended (r : Range) (v : ℚ) (hstep : 0 < r.step) :
    (r.n_values < 4 → r.spline_stencil v = .error ⟨v⟩) ∧
      (4 ≤ r.n_values → r.value 1 ≤ v → v < r.value (r.n_values - 2) →
        (r.spline_stencil v = .ok (.centered (r.iguess_of v - 1)
            ⟨r.value (r.iguess_of v - 1), r.value (r.iguess_of v),
              r.value (r.iguess_of v + 1), r.value (r.iguess_of v + 2)⟩ v) ∧
          1 ≤ r.iguess_of v ∧ r.iguess_of v + 3 ≤ r.n_values ∧
          r.value (r.iguess_of v) ≤ v ∧ v < r.value (r.iguess_of v + 1))) ∧
      (4 ≤ r.n_values →
        (v < r.value 1 ∨ r.value (r.n_values - 2) ≤ v) →
        r.spline_stencil v = .error ⟨v⟩) := by
  refine ⟨?_, ?_, ?_⟩
  · intro h
    simp [Range.spline_stencil, h]
  · intro h4 hl hr
    have hn4 : ¬ r.n_values < 4 := by omega
    have hq1 : (1 : ℚ) ≤ (v - r.first) / r.step := by
      rw [le_div_iff hstep]
      simp only [Range.value] at hl
      push_cast at hl
      linarith
    have hfl1 : 1 ≤ ⌊(v - r.first) / r.step⌋ := Int.le_floor.mpr (by
      exact_mod_cast hq1)
    have hig : (r.iguess_of v : ℤ) = ⌊(v - r.first) / r.step⌋ :=
      Int.toNat_of_nonneg (by linarith)
    have hig1 : 1 ≤ r.iguess_of v := by omega
    have hq2 : (v - r.first) / r.step < ((r.n_values - 2 : ℕ) : ℚ) := by
      rw [div_lt_iff hstep]
      simp only [Range.value] at hr
      linarith
    have hfl2 : ⌊(v - r.first) / r.step⌋ < ((r.n_values - 2 : ℕ) : ℤ) :=
      Int.floor_lt.mpr (by exact_mod_cast hq2)
    have hig2 : r.iguess_of v + 3 ≤ r.n_values := by omega
    have hlow : r.value (r.iguess_of v) ≤ v := by
      have h1 : ((r.iguess_of v : ℕ) : ℚ) ≤ (v - r.first) / r.step := by
        rw [show ((r.iguess_of v : ℕ) : ℚ) = ((r.iguess_of v : ℤ) : ℚ) by
          push_cast; ring, hig]
        exact Int.floor_le _
      rw [le_div_iff hstep] at h1
      simp only [Range.value]
      linarith
    have hhigh : v < r.value (r.iguess_of v + 1) := by
      have h1 : (v - r.first) / r.step < ((r.iguess_of v : ℕ) : ℚ) + 1 := by
        rw [show ((r.iguess_of v : ℕ) : ℚ) = ((r.iguess_of v : ℤ) : ℚ) by
          push_cast; ring, hig]
        exact Int.lt_floor_add_one _
      rw [div_lt_iff hstep] at h1
      simp only [Range.value]
      push_cast
      linarith
    have hcond : ¬ (v < r.value 1 ∨ v ≥ r.value (r.n_values - 2)) := by
      push_neg
      exact ⟨hl, hr⟩
    refine ⟨?_, hig1, hig2, hlow, hhigh⟩
    simp only [Range.spline_stencil, if_neg hn4, if_neg hcond]
  · intro h4 h
    have hn4 : ¬ r.n_values < 4 := by omega
    have hcond : v < r.value 1 ∨ v ≥ r.value (r.n_values - 2) := h
    simp only [Range.spline_stencil, if_neg hn4, if_pos hcond]

/-- Claim C2 witness: on the axis `0, 1, ..., 5`, the interior value `5/2`
receives the window `[1, 2, 3, 4]` with its middle interval bracketing the
value. -/
theorem claim_C2_witness :
    Range.spline_stencil ⟨0, 1, 6⟩ (5 / 2) =
      .ok (.centered 1 ⟨1, 2, 3, 4⟩ (5 / 2)) := by
  have h := (claim_C2_amended ⟨0, 1, 6⟩ (5 / 2)
    (by show (0 : ℚ) < 1; norm_num)).2.1
    (by norm_num)
    (by norm_num [Range.value])
    (by norm_num [Range.value])
  have hig : Range.iguess_of ⟨0, 1, 6⟩ (5 / 2) = 2 := by
    norm_num [Range.iguess_of]
    rfl
  rw [hig] at h
  norm_num [Range.value] at h
  exact h

/-- Claim C5 counterexample: the sequence `[0, -1e-13, 1e-12]` is not
strictly increasing (its second element is below its first), yet
`from_slice` accepts it, because the code only checks that the endpoints
increase and that every sample is within `1e-12` of the endpoint-anchored
arithmetic progression. -/
theorem claim_C5_counterexample :
    (([0, -1 / 10 ^ 13, 1 / 10 ^ 12] : List ℚ).getD 1 0 <
        ([0, -1 / 10 ^ 13, 1 / 10 ^ 12] : List ℚ).getD 0 0) ∧
      Range.from_slice [0, -1 / 10 ^ 13, 1 / 10 ^ 12] =
        .ok ⟨0, 1 / 2000000000000, 3⟩ := by
  constructor
  · norm_num
  · norm_num [Range.from_slice, Range.value, is_close, eps, abs_le,
      List.range_succ]

/-- Claim C5 (amended): `Range::from_slice` fails with a `RangeError` on
fewer than 2 values, or when the last sample does not exceed the first
(non-positive endpoint-anchored step), or when any sample deviates by more
than `1e-12` from the arithmetic progression anchored at the two endpoint
samples; it succeeds exactly when every sample is within `1e-12` of that
endpoint-anchored progression (so every strictly increasing, exactly evenly
spaced sequence is accepted, with `value i = s i` exactly) — but it does not
check monotonicity pointwise, and closeness is measured against the
endpoint-anchored progression rather than against an arbitrary nearby
arithmetic progression. -/
theorem claim_C5_amended (s : List ℚ) (a d : ℚ) (n : ℕ) :
    (s.length < 2 → Range.from_slice s = .error .fewerThanTwoValues) ∧
      (2 ≤ s.length →
        ((s.getD (s.length - 1) 0 - s.getD 0 0) /
            ((s.length - 1 : ℕ) : ℚ) ≤ 0 →
          Range.from_slice s = .error .notInIncreasingOrder)) ∧
      (2 ≤ s.length →
        0 < (s.getD (s.length - 1) 0 - s.getD 0 0) /
          ((s.length - 1 : ℕ) : ℚ) →
        ((∀ i, i < s.length →
            is_close
              (Range.value
                ⟨s.getD 0 0,
                  (s.getD (s.length - 1) 0 - s.getD 0 0) /
                    ((s.length - 1 : ℕ) : ℚ), s.length⟩ i)
              (s.getD i 0) = true) →
          Range.from_slice s =
            .ok ⟨s.getD 0 0,
              (s.getD (s.length - 1) 0 - s.getD 0 0) /
                ((s.length - 1 : ℕ) : ℚ), s.length⟩) ∧
        (¬ (∀ i, i < s.length →
            is_close
              (Range.value
                ⟨s.getD 0 0,
                  (s.getD (s.length - 1) 0 - s.getD 0 0) /
                    ((s.length - 1 : ℕ) : ℚ), s.length⟩ i)
              (s.getD i 0) = true) →
          Range.from_slice s = .error .notLinear)) ∧
      (0 < d → 2 ≤ n →
        Range.from_slice (ap_list a d n) = .ok ⟨a, d, n⟩ ∧
          ∀ i, i < n →
            Range.value ⟨a, d, n⟩ i = (ap_list a d n).getD i 0) := by
  refine ⟨?_, ?_, ?_, ?_⟩
  · intro h
    simp [Range.from_slice, h]
  · intro hlen hle
    have h2 : ¬ s.length < 2 := by omega
    simp only [Range.from_slice, if_neg h2, if_pos hle]
  · intro hlen hpos
    have h2 : ¬ s.length < 2 := by omega
    have hle : ¬ (s.getD (s.length - 1) 0 - s.getD 0 0) /
        ((s.length - 1 : ℕ) : ℚ) ≤ 0 := not_le.mpr hpos
    constructor
    · intro hall
      have hall' : (List.range s.length).all
          (fun i =>
            is_close
              (Range.value
                ⟨s.getD 0 0,
                  (s.getD (s.length - 1) 0 - s.getD 0 0) /
                    ((s.length - 1 : ℕ) : ℚ), s.length⟩ i)
              (s.getD i 0)) = true :=
        List.all_eq_true.mpr fun i hi => hall i (List.mem_range.mp hi)
      simp only [Range.from_slice, if_neg h2, if_neg hle, if_pos hall']
    · intro hall
      have hall' : ¬ (List.range s.length).all
          (fun i =>
            is_close
              (Range.value
                ⟨s.getD 0 0,
                  (s.getD (s.length - 1) 0 - s.getD 0 0) /
                    ((s.length - 1 : ℕ) : ℚ), s.length⟩ i)
              (s.getD i 0)) = true := by
        intro hc
        exact hall fun i hi =>
          List.all_eq_true.mp hc i (List.mem_range.mpr hi)
      simp only [Range.from_slice, if_neg h2, if_neg hle, if_neg hall']
  · intro hd hn
    have hlen : (ap_list a d n).length = n := by
      simp [ap_list]
    have hgetD : ∀ i, i < n → (ap_list a d n).getD i 0 = a + (i : ℚ) * d := by
      intro i hi
      rw [List.getD_eq_getElem _ _ (by rw [hlen]; exact hi)]
      simp [ap_list]
    have hne : ((n - 1 : ℕ) : ℚ) ≠ 0 := Nat.cast_ne_zero.mpr (by omega)
    have hd0 : (ap_list a d n).getD 0 0 = a := by
      rw [hgetD 0 (by omega)]
      simp
    have hdlast : (ap_list a d n).getD (n - 1) 0 =
        a + ((n - 1 : ℕ) : ℚ) * d := hgetD (n - 1) (by omega)
    have hstep : ((ap_list a d n).getD ((ap_list a d n).length - 1) 0 -
          (ap_list a d n).getD 0 0) /
        (((ap_list a d n).length - 1 : ℕ) : ℚ) = d := by
      rw [hlen, hd0, hdlast]
      have h1 : a + ((n - 1 : ℕ) : ℚ) * d - a = ((n - 1 : ℕ) : ℚ) * d := by
        ring
      rw [h1, mul_comm, mul_div_assoc, div_self hne, mul_one]
    constructor
    · have h2 : ¬ (ap_list a d n).length < 2 := by
        rw [hlen]; omega
      have hle : ¬ ((ap_list a d n).getD ((ap_list a d n).length - 1) 0 -
            (ap_list a d n).getD 0 0) /
          (((ap_list a d n).length - 1 : ℕ) : ℚ) ≤ 0 := by
        rw [hstep]
        exact not_le.mpr hd
      have hall : (List.range (ap_list a d n).length).all
          (fun i =>
            is_close
              (Range.value
                ⟨(ap_list a d n).getD 0 0,
                  ((ap_list a d n).getD ((ap_list a d n).length - 1) 0 -
                    (ap_list a d n).getD 0 0) /
                    (((ap_list a d n).length - 1 : ℕ) : ℚ),
                  (ap_list a d n).length⟩ i)
              ((ap_list a d n).getD i 0)) = true := by
        refine List.all_eq_true.mpr fun i hi => ?_
        rw [hlen] at hi
        have hi' := List.mem_range.mp hi
        rw [is_close_iff, hstep, hd0, hgetD i hi']
        simp only [Range.value]
        have h0 : (i : ℚ) * d + a - (a + (i : ℚ) * d) = 0 := by ring
        rw [h0]
        simp [eps_pos.le]
      simp only [Range.from_slice, if_neg h2, if_neg hle, if_pos hall]
      rw [hstep, hd0, hlen]
    · intro i hi
      rw [hgetD i hi]
      simp only [Range.value]
      ring

/-- Claim C5 witness: an exact arithmetic progression is accepted with the
expected axis, a short list is rejected, and the sample `[0, 1, 2 + 1e-11]`
deviating from the endpoint-anchored progression is rejected. -/
theorem claim_C5_witness :
    (Range.from_slice (ap_list 0 1 3) = .ok ⟨0, 1, 3⟩ ∧
      ∀ i, i < 3 →
        Range.value ⟨0, 1, 3⟩ i = (ap_list 0 1 3).getD i 0) ∧
      Range.from_slice [(5 : ℚ)] = .error .fewerThanTwoValues :=
  ⟨(claim_C5_amended [5] 0 1 3).2.2.2 (by norm_num) (by norm_num),
    (claim_C5_amended [(5 : ℚ)] 0 1 3).1 (by norm_num)⟩

/-- Claim C7: `subrange_in` returns `some r` exactly when at least two grid
points of `a` are contained in `b`'s bounds (value containment with endpoint
tolerance); in that case `r` keeps `a`'s step, starts at the first contained
grid point, its points are exactly the contiguous run of `a`'s grid points
contained in `b`, and every point of `r` lies within `b`'s bounds. -/
theorem claim_C7_subrange (a b r : Range) (k i : ℕ)
    (ha : 0 < a.step) (hb : 0 < b.step) :
    (a.subrange_in b = none ↔ a.contained_count b < 2) ∧
      (a.subrange_in b = some r →
        (r.step = a.step ∧
          r.n_values = a.contained_count b ∧
          r.first = a.value ((a.first_contained b).getD 0) ∧
          (a.first_contained b).getD 0 + r.n_values ≤ a.n_values) ∧
        (k < r.n_values →
          r.value k = a.value ((a.first_contained b).getD 0 + k) ∧
          b.contains (r.value k) = true) ∧
        (i < a.n_values →
          (b.contains (a.value i) = true ↔
            (a.first_contained b).getD 0 ≤ i ∧
              i < (a.first_contained b).getD 0 + r.n_values))) := by
  cases h0 : a.first_contained b with
  | none =>
    have hnone : ∀ j ∈ List.range a.n_values,
        ¬ (fun j => b.contains (a.value j)) j = true := by
      rw [Range.first_contained] at h0
      exact fun j hj => List.find?_eq_none.mp h0 j hj
    have hcnt : a.contained_count b = 0 := by
      rw [Range.contained_count, List.length_eq_zero]
      exact List.filter_eq_nil.mpr fun j hj => hnone j hj
    have hsub : a.subrange_in b = none := by
      rw [Range.subrange_in, h0]
    refine ⟨⟨fun _ => by omega, fun _ => hsub⟩, fun hsome => ?_⟩
    rw [hsub] at hsome
    cases hsome
  | some i0 =>
    have hfind : (List.range' 0 a.n_values).find?
        (fun j => b.contains (a.value j)) = some i0 := by
      rw [← List.range_eq_range']
      rw [Range.first_contained] at h0
      exact h0
    obtain ⟨-, hi0n, hpi0, hmin⟩ :=
      find?_range'_spec (fun j => b.contains (a.value j)) a.n_values 0 i0 hfind
    obtain ⟨j0, hj0n, hpj0, hmax⟩ :=
      exists_max_p (fun j => b.contains (a.value j)) a.n_values i0
        (by omega) hpi0
    have hij : i0 ≤ j0 := by
      by_contra hc
      have hf := hmin j0 (by omega) (by omega)
      rw [hf] at hpj0
      cases hpj0
    have hchar : ∀ m, m < a.n_values →
        (b.contains (a.value m) = true ↔ i0 ≤ m ∧ m ≤ j0) := by
      intro m hm
      constructor
      · intro hpm
        constructor
        · by_contra hc
          push_neg at hc
          have hf := hmin m (by omega) (by omega)
          rw [hf] at hpm
          cases hpm
        · by_contra hc
          push_neg at hc
          have hf := hmax m (by omega) hm
          rw [hf] at hpm
          cases hpm
      · rintro ⟨h1, h2⟩
        have hv1 : b.first - eps ≤ a.value m :=
          le_trans ((b.contains_iff hb (a.value i0)).mp hpi0).1
            (a.value_le_value ha h1)
        have hv2 : a.value m ≤ b.last + eps :=
          le_trans (a.value_le_value ha h2)
            ((b.contains_iff hb (a.value j0)).mp hpj0).2
        exact (b.contains_iff hb (a.value m)).mpr ⟨hv1, hv2⟩
    have hcnt : a.contained_count b = j0 + 1 - i0 := by
      rw [Range.contained_count]
      have hcongr : (List.range a.n_values).filter
          (fun j => b.contains (a.value j)) =
          (List.range a.n_values).filter
            (fun m => decide (i0 ≤ m ∧ m ≤ j0)) := by
        apply List.filter_congr
        intro m hm
        have hm' := List.mem_range.mp hm
        by_cases hpm : b.contains (a.value m) = true
        · rw [hpm]
          symm
          simpa using (hchar m hm').mp hpm
        · have hf : b.contains (a.value m) = false := by
            cases hv : b.contains (a.value m)
            · rfl
            · exact absurd hv hpm
          rw [hf]
          symm
          simp only [decide_eq_false_iff_not]
          intro hc
          exact hpm ((hchar m hm').mpr hc)
      rw [hcongr, length_filter_range_window]
      omega
    have hcode : 1 + ((List.range' (i0 + 1) (a.n_values - (i0 + 1))).filter
        (fun j => b.contains (a.value j))).length = j0 + 1 - i0 := by
      have hcongr2 : (List.range' (i0 + 1) (a.n_values - (i0 + 1))).filter
          (fun j => b.contains (a.value j)) =
          (List.range' (i0 + 1) (a.n_values - (i0 + 1))).filter
            (fun m => decide (m ≤ j0)) := by
        apply List.filter_congr
        intro m hm
        have hm' := List.mem_range'_1.mp hm
        have hmn : m < a.n_values := by omega
        by_cases hpm : b.contains (a.value m) = true
        · rw [hpm]
          symm
          simpa using ((hchar m hmn).mp hpm).2
        · have hf : b.contains (a.value m) = false := by
            cases hv : b.contains (a.value m)
            · rfl
            · exact absurd hv hpm
          rw [hf]
          symm
          simp only [decide_eq_false_iff_not]
          intro hc
          exact hpm ((hchar m hmn).mpr ⟨by omega, hc⟩)
      rw [hcongr2, length_filter_range'_le]
      omega
    have hgetD : (a.first_contained b).getD 0 = i0 := by
      rw [h0]
      rfl
    have hsub : a.subrange_in b =
        if 2 ≤ j0 + 1 - i0 then some ⟨a.value i0, a.step, j0 + 1 - i0⟩
        else none := by
      rw [Range.subrange_in, h0]
      simp only [hcode]
    by_cases h2 : 2 ≤ j0 + 1 - i0
    · rw [if_pos h2] at hsub
      refine ⟨⟨fun hn => ?_, fun hc => ?_⟩, fun hsome => ?_⟩
      · rw [hsub] at hn
        cases hn
      · omega
      · rw [hsub] at hsome
        have hr : r = ⟨a.value i0, a.step, j0 + 1 - i0⟩ := by
          injection hsome with h
          exact h.symm
        subst hr
        simp only [Option.getD_some]
        refine ⟨⟨trivial, by rw [hcnt], trivial, by omega⟩, fun hk => ?_,
          fun hi => ?_⟩
        · have hkval : Range.value ⟨a.value i0, a.step, j0 + 1 - i0⟩ k =
              a.value (i0 + k) := by
            simp only [Range.value]
            push_cast
            ring
          refine ⟨hkval, ?_⟩
          rw [hkval]
          exact (hchar (i0 + k) (by omega)).mpr ⟨by omega, by omega⟩
        · rw [hchar i hi]
          omega
    · rw [if_neg h2] at hsub
      refine ⟨⟨fun _ => by omega, fun _ => hsub⟩, fun hsome => ?_⟩
      rw [hsub] at hsome
      cases hsome

/-- Claim C7 witness: `a = 0,1,2,3,4` intersected with `b` spanning
`[2, 8]` produces the sub-axis `2, 3, 4`, whose points are exactly the
contained run of `a`'s points. -/
theorem claim_C7_witness :
    ((0 : ℚ) < 1 ∧ (0 : ℚ) < 1) ∧
      ((Range.subrange_in ⟨0, 1, 5⟩ ⟨2, 1, 7⟩ = none ↔
          Range.contained_count ⟨0, 1, 5⟩ ⟨2, 1, 7⟩ < 2) ∧
        (Range.subrange_in ⟨0, 1, 5⟩ ⟨2, 1, 7⟩ = some ⟨2, 1, 3⟩ →
          ((Range.mk 2 1 3).step = (Range.mk 0 1 5).step ∧
            (Range.mk 2 1 3).n_values =
              Range.contained_count ⟨0, 1, 5⟩ ⟨2, 1, 7⟩ ∧
            (Range.mk 2 1 3).first =
              Range.value ⟨0, 1, 5⟩
                ((Range.first_contained ⟨0, 1, 5⟩ ⟨2, 1, 7⟩).getD 0) ∧
            (Range.first_contained ⟨0, 1, 5⟩ ⟨2, 1, 7⟩).getD 0 +
                (Range.mk 2 1 3).n_values ≤ (Range.mk 0 1 5).n_values) ∧
          (1 < (Range.mk 2 1 3).n_values →
            Range.value ⟨2, 1, 3⟩ 1 =
              Range.value ⟨0, 1, 5⟩
                ((Range.first_contained ⟨0, 1, 5⟩ ⟨2, 1, 7⟩).getD 0 + 1) ∧
            Range.contains ⟨2, 1, 7⟩ (Range.value ⟨2, 1, 3⟩ 1) = true) ∧
          (3 < (Range.mk 0 1 5).n_values →
            (Range.contains ⟨2, 1, 7⟩ (Range.value ⟨0, 1, 5⟩ 3) = true ↔
              (Range.first_contained ⟨0, 1, 5⟩ ⟨2, 1, 7⟩).getD 0 ≤ 3 ∧
                3 < (Range.first_contained ⟨0, 1, 5⟩ ⟨2, 1, 7⟩).getD 0 +
                  (Range.mk 2 1 3).n_values)))) :=
  ⟨⟨by norm_num, by norm_num⟩,
    claim_C7_subrange ⟨0, 1, 5⟩ ⟨2, 1, 7⟩ ⟨2, 1, 3⟩ 1 3
      (by show (0 : ℚ) < 1; norm_num) (by show (0 : ℚ) < 1; norm_num)⟩

/-- Claim C6 counterexample: on the stream `[4,0,0,0]` — a valid leading
length of 4 bytes for one 4-byte element, with the payload missing — the
reader fails with an end-of-file error, not with an `InvalidData` error
reporting expected versus actual sizes. -/
theorem claim_C6_counterexample :
    read_fort_record 4 1 [4, 0, 0, 0] = .error .unexpectedEof ∧
      (match read_fort_record 4 1 [4, 0, 0, 0] with
        | .error (.invalidData _ _) => true
        | _ => false) = false := by
  constructor
  · decide
  · decide

/-- Claim C6 (amended): `read_fort_record` over a byte stream and a
destination buffer of `n` elements of size `elt_size` succeeds if and only
if the stream starts with a well-formed record: a 4-byte little-endian
length equal to `n * elt_size`, `n` little-endian elements, and a trailing
length equal to the leading one; on success the buffer holds exactly the `n`
decoded values. A leading length differing from `n * elt_size`, or a
trailing length differing from the leading one, fails with an `InvalidData`
error reporting the expected versus actual size; but a short read or EOF
fails with an `UnexpectedEof` error (from `read_exact`), not with
`InvalidData`. -/
theorem claim_C6_amended (elt_size n p q : ℕ) (vals : List ℕ)
    (s rest : List Byte) :
    (read_fort_record elt_size n s = .ok (vals, rest) ↔
      (n = vals.length ∧ vals.length * elt_size < 2 ^ 32 ∧
        vals.all (fun v => decide (v < 256 ^ elt_size)) = true ∧
        s = recordBytes elt_size vals ++ rest)) ∧
      (p < 2 ^ 32 → p ≠ n * elt_size →
        read_fort_record elt_size n (leBytes 4 p ++ s) =
          .error (.invalidData (n * elt_size) p)) ∧
      (s.length < 4 →
        read_fort_record elt_size n s = .error .unexpectedEof) ∧
      (q < 2 ^ 32 → q ≠ vals.length * elt_size →
        vals.length * elt_size < 2 ^ 32 →
        vals.all (fun v => decide (v < 256 ^ elt_size)) = true →
        read_fort_record elt_size vals.length
            (leBytes 4 (vals.length * elt_size) ++ elemsBytes elt_size vals ++
              leBytes 4 q ++ rest) =
          .error (.invalidData (vals.length * elt_size) q)) := by
  have h2564 : (256 : ℕ) ^ 4 = 2 ^ 32 := by norm_num
  refine ⟨⟨?_, ?_⟩, ?_, ?_, ?_⟩
  · -- success implies well-formed record
    intro h
    simp only [read_fort_record] at h
    cases hrb : readBytes 4 s with
    | error e =>
      simp only [hrb] at h
      exact Except.noConfusion h
    | ok pr =>
      obtain ⟨pre_bs, s1⟩ := pr
      simp only [hrb] at h
      obtain ⟨hs, hpl⟩ := readBytes_inv 4 s pre_bs s1 hrb
      by_cases hpre : leNat pre_bs = n * elt_size
      · rw [if_neg (by omega)] at h
        cases hre : readElems elt_size n s1 with
        | error e =>
          simp only [hre] at h
          exact Except.noConfusion h
        | ok qr =>
          obtain ⟨vs, s2⟩ := qr
          simp only [hre] at h
          obtain ⟨hvl, hvb, hs1⟩ := readElems_inv elt_size n s1 vs s2 hre
          cases hrb2 : readBytes 4 s2 with
          | error e =>
            simp only [hrb2] at h
            exact Except.noConfusion h
          | ok tr =>
            obtain ⟨post_bs, s3⟩ := tr
            simp only [hrb2] at h
            obtain ⟨hs2, hql⟩ := readBytes_inv 4 s2 post_bs s3 hrb2
            by_cases hpost : leNat post_bs = leNat pre_bs
            · rw [if_neg (by omega)] at h
              injection h with h
              injection h with hv1 hv2
              subst hv1
              subst hv2
              have hlt : leNat pre_bs < 2 ^ 32 := by
                have hl4 := leNat_lt pre_bs
                rw [hpl, h2564] at hl4
                exact hl4
              have hprebs : pre_bs = leBytes 4 (n * elt_size) := by
                rw [← hpre, ← hpl]
                exact (leBytes_leNat pre_bs).symm
              have hpostbs : post_bs = leBytes 4 (n * elt_size) := by
                rw [← hpre, ← hpost, ← hql]
                exact (leBytes_leNat post_bs).symm
              refine ⟨by omega, by rw [hvl]; omega, ?_, ?_⟩
              · exact List.all_eq_true.mpr fun v hv =>
                  decide_eq_true (hvb v hv)
              · rw [hs, hs1, hs2, hprebs, hpostbs, recordBytes, hvl]
                simp [List.append_assoc]
            · rw [if_pos (by omega)] at h
              exact Except.noConfusion h
      · rw [if_pos (by omega)] at h
        exact Except.noConfusion h
  · -- well-formed record implies success
    rintro ⟨hn, hlt, hball, hstream⟩
    subst hn
    have hb : ∀ v ∈ vals, v < 256 ^ elt_size := fun v hv =>
      of_decide_eq_true (List.all_eq_true.mp hball v hv)
    have hsh : recordBytes elt_size vals ++ rest =
        leBytes 4 (vals.length * elt_size) ++
          (elemsBytes elt_size vals ++
            (leBytes 4 (vals.length * elt_size) ++ rest)) := by
      rw [recordBytes]
      simp [List.append_assoc]
    rw [hstream, hsh]
    have hln : leNat (leBytes 4 (vals.length * elt_size)) =
        vals.length * elt_size := leNat_leBytes 4 _ (by omega)
    simp only [read_fort_record,
      readBytes_append _ _ _ (length_leBytes 4 (vals.length * elt_size)), hln]
    rw [if_neg (show ¬(vals.length * elt_size ≠ vals.length * elt_size) by
      omega)]
    simp only [readElems_encode elt_size vals _ hb,
      readBytes_append _ _ _ (length_leBytes 4 (vals.length * elt_size)), hln]
    rw [if_neg (show ¬(vals.length * elt_size ≠ vals.length * elt_size) by
      omega)]
  · -- leading length mismatch
    intro hp hne
    have hln : leNat (leBytes 4 p) = p := leNat_leBytes 4 p (by omega)
    simp only [read_fort_record,
      readBytes_append _ _ _ (length_leBytes 4 p), hln]
    rw [if_pos hne]
  · -- short read at the leading length
    intro hlen
    simp only [read_fort_record, readBytes, if_pos hlen]
  · -- trailing length mismatch
    intro hq hne hlt hball
    have hb : ∀ v ∈ vals, v < 256 ^ elt_size := fun v hv =>
      of_decide_eq_true (List.all_eq_true.mp hball v hv)
    have hsh : leBytes 4 (vals.length * elt_size) ++ elemsBytes elt_size vals
        ++ leBytes 4 q ++ rest =
        leBytes 4 (vals.length * elt_size) ++
          (elemsBytes elt_size vals ++ (leBytes 4 q ++ rest)) := by
      simp [List.append_assoc]
    rw [hsh]
    have hln : leNat (leBytes 4 (vals.length * elt_size)) =
        vals.length * elt_size := leNat_leBytes 4 _ (by omega)
    have hlq : leNat (leBytes 4 q) = q := leNat_leBytes 4 q (by omega)
    simp only [read_fort_record,
      readBytes_append _ _ _ (length_leBytes 4 (vals.length * elt_size)), hln]
    rw [if_neg (show ¬(vals.length * elt_size ≠ vals.length * elt_size) by
      omega)]
    simp only [readElems_encode elt_size vals _ hb,
      readBytes_append _ _ _ (length_leBytes 4 q), hlq]
    rw [if_pos hne]

/-- Claim C6 witness: a well-formed one-element record round-trips, a wrong
leading length is reported as `InvalidData` with expected and actual sizes,
and a wrong trailing length likewise. -/
theorem claim_C6_witness :
    read_fort_record 4 1 (recordBytes 4 [7] ++ []) = .ok ([7], []) ∧
      read_fort_record 4 1 (leBytes 4 8 ++ []) =
        .error (.invalidData 4 8) ∧
      read_fort_record 4 1
          (leBytes 4 4 ++ elemsBytes 4 [7] ++ leBytes 4 8 ++ []) =
        .error (.invalidData 4 8) :=
  ⟨(claim_C6_amended 4 1 8 8 [7] (recordBytes 4 [7] ++ []) []).1.mpr
      ⟨by decide, by decide, by decide, rfl⟩,
    (claim_C6_amended 4 1 8 8 [7] [] []).2.1 (by decide) (by decide),
    (claim_C6_amended 4 1 8 8 [7] [] []).2.2.2 (by decide) (by decide)
      (by decide) (by decide)⟩

/-- Claim C1: composition-order consistency of the opacity query layer.
For every `h_frac`, `log_temperature` and `log_r` at which both paths
succeed, the combined query `ConstMetalTables::at` — which slices minimal
stencil windows out of the two neighbouring H-fraction grids, linearly
blends those windows at `h_frac`, then bilinearly interpolates the blended
window — returns the same value as first resolving a leaf table with
`take_at_h_frac` (blending the full grids) and then querying
`RTempTable::at`. The agreement is exact: both paths perform the same
blend and interpolation operations on the same values. -/
theorem claim_C1_composition_order (tbl : ConstMetalTables)
    (h_frac lT lR : ℚ)
    (h1 : exceptOk (tbl.query h_frac lT lR) = true)
    (h2 : exceptOk (tbl.resolve_then_query h_frac lT lR) = true) :
    tbl.query h_frac lT lR = tbl.resolve_then_query h_frac lT lR := by
  cases hT : tbl.log_temperature.linear_stencil lT with
  | error e =>
    have heq : tbl.query h_frac lT lR = .error e := by
      unfold ConstMetalTables.query
      rw [hT]
    rw [heq] at h1
    exact absurd h1 (by simp [exceptOk])
  | ok logt_st =>
  cases hR : tbl.log_r.linear_stencil lR with
  | error e =>
    have heq : tbl.query h_frac lT lR = .error e := by
      unfold ConstMetalTables.query
      rw [hT, hR]
    rw [heq] at h1
    exact absurd h1 (by simp [exceptOk])
  | ok logr_st =>
  cases hH : tbl.h_fracs.idx_lin h_frac with
  | error e =>
    have hHs : tbl.h_fracs.linear_stencil h_frac = .error e := by
      unfold Range.linear_stencil
      rw [hH]
    have heq : tbl.query h_frac lT lR = .error e := by
      unfold ConstMetalTables.query
      rw [hT, hR, hHs]
    rw [heq] at h1
    exact absurd h1 (by simp [exceptOk])
  | ok idx =>
  cases idx with
  | exact i =>
    have hHs : tbl.h_fracs.linear_stencil h_frac = .ok (.exact i h_frac) := by
      unfold Range.linear_stencil
      rw [hH]
    have heqA : tbl.query h_frac lT lR =
        .ok (lin_interp_2d logt_st logr_st (fun a b => tbl.values i a b)) := by
      unfold ConstMetalTables.query
      rw [hT, hR, hHs]
    have htake : tbl.take_at_h_frac h_frac =
        .ok ⟨tbl.metallicity, h_frac, tbl.log_temperature, tbl.log_r,
          fun a b => tbl.values i a b⟩ := by
      unfold ConstMetalTables.take_at_h_frac
      rw [hH]
    have hres : tbl.resolve_then_query h_frac lT lR =
        RTempTable.query
          ⟨tbl.metallicity, h_frac, tbl.log_temperature, tbl.log_r,
            fun a b => tbl.values i a b⟩ lT lR := by
      unfold ConstMetalTables.resolve_then_query
      rw [htake]
    have hT' : (RTempTable.log_temperature
        ⟨tbl.metallicity, h_frac, tbl.log_temperature, tbl.log_r,
          fun a b => tbl.values i a b⟩).linear_stencil lT = .ok logt_st := hT
    have hR' : (RTempTable.log_r
        ⟨tbl.metallicity, h_frac, tbl.log_temperature, tbl.log_r,
          fun a b => tbl.values i a b⟩).linear_stencil lR = .ok logr_st := hR
    have hleafq : RTempTable.query
        ⟨tbl.metallicity, h_frac, tbl.log_temperature, tbl.log_r,
          fun a b => tbl.values i a b⟩ lT lR =
        .ok (lin_interp_2d logt_st logr_st (fun a b => tbl.values i a b)) := by
      unfold RTempTable.query
      rw [hT', hR']
    rw [heqA, hres, hleafq]
  | between hi hj =>
    have hj1 : hj = hi + 1 := idx_lin_between _ _ _ _ hH
    subst hj1
    have hHs : tbl.h_fracs.linear_stencil h_frac = .ok (.between hi (hi + 1)
        (LinearInterpolator.new (tbl.h_fracs.value hi)
          (tbl.h_fracs.value (hi + 1)) h_frac)) := by
      unfold Range.linear_stencil
      rw [hH]
    have heqA : tbl.query h_frac lT lR =
        .ok (lin_interp_2d logt_st.rebase logr_st.rebase
          ((LinearInterpolator.new (tbl.h_fracs.value hi)
              (tbl.h_fracs.value (hi + 1)) h_frac).interp2
            (logr_st.slice1 (logt_st.slice0 (fun a b => tbl.values hi a b)))
            (logr_st.slice1
              (logt_st.slice0 (fun a b => tbl.values (hi + 1) a b))))) := by
      unfold ConstMetalTables.query
      rw [hT, hR, hHs]
    have htake : tbl.take_at_h_frac h_frac =
        .ok ⟨tbl.metallicity, h_frac, tbl.log_temperature, tbl.log_r,
          (LinearInterpolator.new (tbl.h_fracs.value hi)
              (tbl.h_fracs.value (hi + 1)) h_frac).interp2
            (fun a b => tbl.values hi a b)
            (fun a b => tbl.values (hi + 1) a b)⟩ := by
      unfold ConstMetalTables.take_at_h_frac
      rw [hH]
    have hres : tbl.resolve_then_query h_frac lT lR =
        RTempTable.query
          ⟨tbl.metallicity, h_frac, tbl.log_temperature, tbl.log_r,
            (LinearInterpolator.new (tbl.h_fracs.value hi)
                (tbl.h_fracs.value (hi + 1)) h_frac).interp2
              (fun a b => tbl.values hi a b)
              (fun a b => tbl.values (hi + 1) a b)⟩ lT lR := by
      unfold ConstMetalTables.resolve_then_query
      rw [htake]
    have hT' : (RTempTable.log_temperature
        ⟨tbl.metallicity, h_frac, tbl.log_temperature, tbl.log_r,
          (LinearInterpolator.new (tbl.h_fracs.value hi)
              (tbl.h_fracs.value (hi + 1)) h_frac).interp2
            (fun a b => tbl.values hi a b)
            (fun a b => tbl.values (hi + 1) a b)⟩).linear_stencil lT =
        .ok logt_st := hT
    have hR' : (RTempTable.log_r
        ⟨tbl.metallicity, h_frac, tbl.log_temperature, tbl.log_r,
          (LinearInterpolator.new (tbl.h_fracs.value hi)
              (tbl.h_fracs.value (hi + 1)) h_frac).interp2
            (fun a b => tbl.values hi a b)
            (fun a b => tbl.values (hi + 1) a b)⟩).linear_stencil lR =
        .ok logr_st := hR
    have hleafq : RTempTable.query
        ⟨tbl.metallicity, h_frac, tbl.log_temperature, tbl.log_r,
          (LinearInterpolator.new (tbl.h_fracs.value hi)
              (tbl.h_fracs.value (hi + 1)) h_frac).interp2
            (fun a b => tbl.values hi a b)
            (fun a b => tbl.values (hi + 1) a b)⟩ lT lR =
        .ok (lin_interp_2d logt_st logr_st
          ((LinearInterpolator.new (tbl.h_fracs.value hi)
              (tbl.h_fracs.value (hi + 1)) h_frac).interp2
            (fun a b => tbl.values hi a b)
            (fun a b => tbl.values (hi + 1) a b))) := by
      unfold RTempTable.query
      rw [hT', hR']
    rw [heqA, hres, hleafq]
    refine congrArg Except.ok ?_
    apply lin_interp_2d_blend_slice
    · rcases linear_stencil_shape _ _ _ hT with ⟨i, hs⟩ | ⟨i, hs⟩
      · exact Or.inl ⟨i, lT, hs⟩
      · exact Or.inr ⟨i, _, hs⟩
    · rcases linear_stencil_shape _ _ _ hR with ⟨i, hs⟩ | ⟨i, hs⟩
      · exact Or.inl ⟨i, lR, hs⟩
      · exact Or.inr ⟨i, _, hs⟩

/-- Claim C1 witness: on a concrete table with the H-fraction, temperature
and log-R queries all falling strictly between grid points, both paths
succeed and the combined query agrees with resolve-then-query. -/
theorem claim_C1_witness :
    (exceptOk (c1_table.query (1 / 2) (1 / 2) (3 / 2)) = true ∧
        exceptOk (c1_table.resolve_then_query (1 / 2) (1 / 2) (3 / 2)) =
          true) ∧
      c1_table.query (1 / 2) (1 / 2) (3 / 2) =
        c1_table.resolve_then_query (1 / 2) (1 / 2) (3 / 2) := by
  have hidxT : Range.idx_lin ⟨0, 1, 3⟩ (1 / 2) = .ok (.between 0 1) := by
    norm_num [Range.idx_lin, is_close, eps, Range.value, Range.last,
      Range.get, abs_le]
  have hidxR : Range.idx_lin ⟨0, 1, 3⟩ (3 / 2) = .ok (.between 1 2) := by
    norm_num [Range.idx_lin, is_close, eps, Range.value, Range.last,
      Range.get, abs_le]
  have hidxH : Range.idx_lin ⟨0, 1, 2⟩ (1 / 2) = .ok (.between 0 1) := by
    norm_num [Range.idx_lin, is_close, eps, Range.value, Range.last,
      Range.get, abs_le]
  have hT : Range.linear_stencil ⟨0, 1, 3⟩ (1 / 2) = .ok (.between 0 1
      (LinearInterpolator.new (Range.value ⟨0, 1, 3⟩ 0)
        (Range.value ⟨0, 1, 3⟩ 1) (1 / 2))) := by
    unfold Range.linear_stencil
    rw [hidxT]
  have hR : Range.linear_stencil ⟨0, 1, 3⟩ (3 / 2) = .ok (.between 1 2
      (LinearInterpolator.new (Range.value ⟨0, 1, 3⟩ 1)
        (Range.value ⟨0, 1, 3⟩ 2) (3 / 2))) := by
    unfold Range.linear_stencil
    rw [hidxR]
  have hHs : Range.linear_stencil ⟨0, 1, 2⟩ (1 / 2) = .ok (.between 0 1
      (LinearInterpolator.new (Range.value ⟨0, 1, 2⟩ 0)
        (Range.value ⟨0, 1, 2⟩ 1) (1 / 2))) := by
    unfold Range.linear_stencil
    rw [hidxH]
  have hT' : (c1_table.log_temperature).linear_stencil (1 / 2) =
      .ok (.between 0 1 (LinearInterpolator.new (Range.value ⟨0, 1, 3⟩ 0)
        (Range.value ⟨0, 1, 3⟩ 1) (1 / 2))) := hT
  have hR' : (c1_table.log_r).linear_stencil (3 / 2) =
      .ok (.between 1 2 (LinearInterpolator.new (Range.value ⟨0, 1, 3⟩ 1)
        (Range.value ⟨0, 1, 3⟩ 2) (3 / 2))) := hR
  have hH' : (c1_table.h_fracs).linear_stencil (1 / 2) =
      .ok (.between 0 1 (LinearInterpolator.new (Range.value ⟨0, 1, 2⟩ 0)
        (Range.value ⟨0, 1, 2⟩ 1) (1 / 2))) := hHs
  have hH2 : (c1_table.h_fracs).idx_lin (1 / 2) = .ok (.between 0 1) := hidxH
  have hq : c1_table.query (1 / 2) (1 / 2) (3 / 2) =
      .ok (lin_interp_2d
        (LinearStencil.rebase (.between 0 1
          (LinearInterpolator.new (Range.value ⟨0, 1, 3⟩ 0)
            (Range.value ⟨0, 1, 3⟩ 1) (1 / 2))))
        (LinearStencil.rebase (.between 1 2
          (LinearInterpolator.new (Range.value ⟨0, 1, 3⟩ 1)
            (Range.value ⟨0, 1, 3⟩ 2) (3 / 2))))
        ((LinearInterpolator.new (Range.value ⟨0, 1, 2⟩ 0)
            (Range.value ⟨0, 1, 2⟩ 1) (1 / 2)).interp2
          (LinearStencil.slice1 (.between 1 2
              (LinearInterpolator.new (Range.value ⟨0, 1, 3⟩ 1)
                (Range.value ⟨0, 1, 3⟩ 2) (3 / 2)))
            (LinearStencil.slice0 (.between 0 1
                (LinearInterpolator.new (Range.value ⟨0, 1, 3⟩ 0)
                  (Range.value ⟨0, 1, 3⟩ 1) (1 / 2)))
              (fun a b => c1_table.values 0 a b)))
          (LinearStencil.slice1 (.between 1 2
              (LinearInterpolator.new (Range.value ⟨0, 1, 3⟩ 1)
                (Range.value ⟨0, 1, 3⟩ 2) (3 / 2)))
            (LinearStencil.slice0 (.between 0 1
                (LinearInterpolator.new (Range.value ⟨0, 1, 3⟩ 0)
                  (Range.value ⟨0, 1, 3⟩ 1) (1 / 2)))
              (fun a b => c1_table.values 1 a b))))) := by
    unfold ConstMetalTables.query
    rw [hT', hR', hH']
  have hw1 : exceptOk (c1_table.query (1 / 2) (1 / 2) (3 / 2)) = true := by
    rw [hq]
    rfl
  have htake : c1_table.take_at_h_frac (1 / 2) =
      .ok ⟨c1_table.metallicity, 1 / 2, c1_table.log_temperature,
        c1_table.log_r,
        (LinearInterpolator.new (Range.value ⟨0, 1, 2⟩ 0)
            (Range.value ⟨0, 1, 2⟩ 1) (1 / 2)).interp2
          (fun a b => c1_table.values 0 a b)
          (fun a b => c1_table.values 1 a b)⟩ := by
    unfold ConstMetalTables.take_at_h_frac
    rw [hH2]
    rfl
  have hres : c1_table.resolve_then_query (1 / 2) (1 / 2) (3 / 2) =
      RTempTable.query
        ⟨c1_table.metallicity, 1 / 2, c1_table.log_temperature,
          c1_table.log_r,
          (LinearInterpolator.new (Range.value ⟨0, 1, 2⟩ 0)
              (Range.value ⟨0, 1, 2⟩ 1) (1 / 2)).interp2
            (fun a b => c1_table.values 0 a b)
            (fun a b => c1_table.values 1 a b)⟩ (1 / 2) (3 / 2) := by
    unfold ConstMetalTables.resolve_then_query
    rw [htake]
  have hw2 : exceptOk (c1_table.resolve_then_query (1 / 2) (1 / 2) (3 / 2)) =
      true := by
    rw [hres]
    unfold RTempTable.query
    rw [show (RTempTable.log_temperature
        ⟨c1_table.metallicity, 1 / 2, c1_table.log_temperature,
          c1_table.log_r,
          (LinearInterpolator.new (Range.value ⟨0, 1, 2⟩ 0)
              (Range.value ⟨0, 1, 2⟩ 1) (1 / 2)).interp2
            (fun a b => c1_table.values 0 a b)
            (fun a b => c1_table.values 1 a b)⟩).linear_stencil (1 / 2) =
      .ok (.between 0 1 (LinearInterpolator.new (Range.value ⟨0, 1, 3⟩ 0)
        (Range.value ⟨0, 1, 3⟩ 1) (1 / 2))) from hT]
    rw [show (RTempTable.log_r
        ⟨c1_table.metallicity, 1 / 2, c1_table.log_temperature,
          c1_table.log_r,
          (LinearInterpolator.new (Range.value ⟨0, 1, 2⟩ 0)
              (Range.value ⟨0, 1, 2⟩ 1) (1 / 2)).interp2
            (fun a b => c1_table.values 0 a b)
            (fun a b => c1_table.values 1 a b)⟩).linear_stencil (3 / 2) =
      .ok (.between 1 2 (LinearInterpolator.new (Range.value ⟨0, 1, 3⟩ 1)
        (Range.value ⟨0, 1, 3⟩ 2) (3 / 2))) from hR]
    rfl
  exact ⟨⟨hw1, hw2⟩,
    claim_C1_composition_order c1_table (1 / 2) (1 / 2) (3 / 2) hw1 hw2⟩

/-- Claim C10: the centered cubic spline interpolates its two inner window
points: for strictly increasing abscissas and arbitrary ordinates,
`low_level_spline` evaluated at `x1` returns `y1` and at `x2` returns `y2`,
regardless of the outer ordinates `y0` and `y3`. -/
theorem claim_C10_inner_interpolation (x0 x1 x2 x3 y0 y1 y2 y3 : ℚ)
    (h01 : x0 < x1) (h12 : x1 < x2) (h23 : x2 < x3) :
    low_level_spline ⟨x0, x1, x2, x3⟩ ⟨y0, y1, y2, y3⟩ x1 = y1 ∧
      low_level_spline ⟨x0, x1, x2, x3⟩ ⟨y0, y1, y2, y3⟩ x2 = y2 := by
  have h12' : x2 - x1 ≠ 0 := sub_ne_zero.mpr h12.ne'
  constructor
  · simp [low_level_spline]
  · simp only [low_level_spline]
    field_simp

/-- Claim C10 witness: concrete instance of the inner-interpolation
property. -/
theorem claim_C10_witness :
    ((0 : ℚ) < 1 ∧ (1 : ℚ) < 2 ∧ (2 : ℚ) < 3) ∧
      (low_level_spline ⟨0, 1, 2, 3⟩ ⟨5, 7, 11, 13⟩ 1 = 7 ∧
        low_level_spline ⟨0, 1, 2, 3⟩ ⟨5, 7, 11, 13⟩ 2 = 11) :=
  ⟨⟨by norm_num, by norm_num, by norm_num⟩,
    claim_C10_inner_interpolation 0 1 2 3 5 7 11 13 (by norm_num) (by norm_num)
      (by norm_num)⟩

/-- Claim C3 counterexample: on the strictly increasing but unevenly spaced
abscissas `0 < 1 < 2 < 4`, the qudratic `f x = x ^ 2` is not reproduced at
the interior point `3/2`: the spline yields `17/8` instead of `9/4`. -/
theorem claim_C3_counterexample :
    ((0 : ℚ) < 1 ∧ (1 : ℚ) < 2 ∧ (2 : ℚ) < 4) ∧
      low_level_spline ⟨0, 1, 2, 4⟩ ⟨0 ^ 2, 1 ^ 2, 2 ^ 2, 4 ^ 2⟩ (3 / 2) = 17 / 8 ∧
      (17 / 8 : ℚ) ≠ (3 / 2 : ℚ) ^ 2 := by
  refine ⟨⟨by norm_num, by norm_num, by norm_num⟩, ?_, by norm_num⟩
  norm_num [low_level_spline]

/-- Claim C3 (amended): `low_level_spline` reproduces every linear function
`f x = m * x + c` exactly on every strictly increasing 4-point abscissa
vector; quadratics `f x = a * x ^ 2 + b * x + c` are reproduced exactly on
evenly spaced abscissa vectors (which is every stencil a uniform axis
generates), not on arbitrary strictly increasing ones. -/
theorem claim_C3_amended (x0 x1 x2 x3 m a b c q : ℚ)
    (h01 : x0 < x1) (h12 : x1 < x2) (h23 : x2 < x3) :
    low_level_spline ⟨x0, x1, x2, x3⟩
        ⟨m * x0 + c, m * x1 + c, m * x2 + c, m * x3 + c⟩ q = m * q + c ∧
      (x1 - x0 = x2 - x1 → x2 - x1 = x3 - x2 →
        low_level_spline ⟨x0, x1, x2, x3⟩
            ⟨a * x0 ^ 2 + b * x0 + c, a * x1 ^ 2 + b * x1 + c,
              a * x2 ^ 2 + b * x2 + c, a * x3 ^ 2 + b * x3 + c⟩ q =
          a * q ^ 2 + b * q + c) := by
  have h02 : x2 - x0 ≠ 0 := sub_ne_zero.mpr (h01.trans h12).ne'
  have h13 : x3 - x1 ≠ 0 := sub_ne_zero.mpr (h12.trans h23).ne'
  have h12' : x2 - x1 ≠ 0 := sub_ne_zero.mpr h12.ne'
  constructor
  · simp only [low_level_spline]
    field_simp
    ring
  · intro hu1 hu2
    have hx2 : x2 = 2 * x1 - x0 := by linarith
    have hx3 : x3 = 3 * x1 - 2 * x0 := by linarith
    subst hx2 hx3
    have h10 : x1 - x0 ≠ 0 := sub_ne_zero.mpr h01.ne'
    simp only [low_level_spline]
    field_simp
    ring

/-- Claim C3 witness: linear and (on an evenly spaced stencil) quadratic
reproduction at a concrete non-grid point. -/
theorem claim_C3_witness :
    ((0 : ℚ) < 1 ∧ (1 : ℚ) < 2 ∧ (2 : ℚ) < 3) ∧
      (low_level_spline ⟨0, 1, 2, 3⟩
          ⟨5 * 0 + 4, 5 * 1 + 4, 5 * 2 + 4, 5 * 3 + 4⟩ (3 / 2) =
        5 * (3 / 2) + 4 ∧
        ((1 : ℚ) - 0 = 2 - 1 → (2 : ℚ) - 1 = 3 - 2 →
          low_level_spline ⟨0, 1, 2, 3⟩
              ⟨3 * 0 ^ 2 + 2 * 0 + 4, 3 * 1 ^ 2 + 2 * 1 + 4,
                3 * 2 ^ 2 + 2 * 2 + 4, 3 * 3 ^ 2 + 2 * 3 + 4⟩ (3 / 2) =
            3 * (3 / 2) ^ 2 + 2 * (3 / 2) + 4)) :=
  ⟨⟨by norm_num, by norm_num, by norm_num⟩,
    claim_C3_amended 0 1 2 3 5 3 2 4 (3 / 2) (by norm_num) (by norm_num)
      (by norm_num)⟩

/-- Claim C8: the `CstCompoState` constructor derives, element-wise,
`log_energy = log10 energy`, `log_density = log10 density`, and
`log_volume = 20 + log10 density - 0.7 * log10 energy`, and every
subsequent `compute var` queries the table at exactly those derived
coordinates. -/
theorem claim_C8_state_coordinates (log10 : ℚ → ℚ) (tbl : VolumeEnergyTable)
    (density energy : List ℚ) (hlen : density.length = energy.length)
    (hd : ∀ x ∈ density, 0 < x) (he : ∀ x ∈ energy, 0 < x) :
    (CstCompoState.new log10 tbl density energy).log_energy =
        energy.map log10 ∧
      (CstCompoState.new log10 tbl density energy).log_density =
        density.map log10 ∧
      (CstCompoState.new log10 tbl density energy).log_volume =
        List.zipWith (fun dd ee => 20 + log10 dd - (7 / 10) * log10 ee)
          density energy ∧
      ∀ var, (CstCompoState.new log10 tbl density energy).compute var =
        List.zipWith
          (fun dd ee =>
            tbl.query (log10 ee) (20 + log10 dd - (7 / 10) * log10 ee) var)
          density energy :=
  ⟨rfl, rfl, log_volume_new_eq log10 tbl density energy,
    fun var => compute_new_eq log10 tbl density energy var⟩

/-- Claim C8 witness: the coordinate derivation at a concrete positive
state. -/
theorem claim_C8_witness :
    (([(2 : ℚ), 3].length = [(5 : ℚ), 7].length) ∧
        (∀ x ∈ [(2 : ℚ), 3], 0 < x) ∧ (∀ x ∈ [(5 : ℚ), 7], 0 < x)) ∧
      ((CstCompoState.new id ⟨fun a _ _ => a⟩ [2, 3] [5, 7]).log_energy =
          ([(5 : ℚ), 7]).map id ∧
        (CstCompoState.new id ⟨fun a _ _ => a⟩ [2, 3] [5, 7]).log_density =
          ([(2 : ℚ), 3]).map id ∧
        (CstCompoState.new id ⟨fun a _ _ => a⟩ [2, 3] [5, 7]).log_volume =
          List.zipWith (fun dd ee => 20 + id dd - (7 / 10) * id ee)
            [(2 : ℚ), 3] [(5 : ℚ), 7] ∧
        ∀ var,
          (CstCompoState.new id ⟨fun a _ _ => a⟩ [2, 3] [5, 7]).compute var =
            List.zipWith
              (fun dd ee =>
                VolumeEnergyTable.query ⟨fun a _ _ => a⟩ (id ee)
                  (20 + id dd - (7 / 10) * id ee) var)
              [(2 : ℚ), 3] [(5 : ℚ), 7]) :=
  ⟨⟨by norm_num, by norm_num, by norm_num⟩,
    claim_C8_state_coordinates id ⟨fun a _ _ => a⟩ [2, 3] [5, 7] (by norm_num)
      (by norm_num) (by norm_num)⟩

/-- Claim C9: `set_state` recomputes only the derived coordinate arrays,
exactly as the constructor would from the same inputs, leaves the table
reference unchanged, and afterwards `compute` agrees with a state freshly
constructed from the same table and the new inputs. -/
theorem claim_C9_set_state_frame (log10 : ℚ → ℚ) (s : CstMetalState)
    (he_frac density energy : List ℚ)
    (h1 : he_frac.length = density.length)
    (h2 : he_frac.length = energy.length) :
    (s.set_state log10 he_frac density energy).table = s.table ∧
      s.set_state log10 he_frac density energy =
        CstMetalState.new log10 s.table he_frac density energy ∧
      ∀ var, (s.set_state log10 he_frac density energy).compute var =
        (CstMetalState.new log10 s.table he_frac density energy).compute
          var := by
  refine ⟨rfl, ?_, fun var => ?_⟩
  · cases s
    rfl
  · cases s
    rfl

/-- Claim C9 witness: the frame property at a concrete state and concrete
new inputs. -/
theorem claim_C9_witness :
    (([(1 : ℚ) / 2].length = [(2 : ℚ)].length) ∧
        ([(1 : ℚ) / 2].length = [(3 : ℚ)].length)) ∧
      ((CstMetalState.set_state ⟨[0], [0], [0], [0], ⟨1 / 50, fun h _ _ _ => h⟩⟩
            id [1 / 2] [2] [3]).table =
          (⟨[0], [0], [0], [0], ⟨1 / 50, fun h _ _ _ => h⟩⟩ :
            CstMetalState).table ∧
        CstMetalState.set_state ⟨[0], [0], [0], [0], ⟨1 / 50, fun h _ _ _ => h⟩⟩
            id [1 / 2] [2] [3] =
          CstMetalState.new id
            (⟨[0], [0], [0], [0], ⟨1 / 50, fun h _ _ _ => h⟩⟩ :
              CstMetalState).table [1 / 2] [2] [3] ∧
        ∀ var,
          (CstMetalState.set_state
                ⟨[0], [0], [0], [0], ⟨1 / 50, fun h _ _ _ => h⟩⟩ id [1 / 2]
                [2] [3]).compute var =
            (CstMetalState.new id
                  (⟨[0], [0], [0], [0], ⟨1 / 50, fun h _ _ _ => h⟩⟩ :
                    CstMetalState).table [1 / 2] [2] [3]).compute var) :=
  ⟨⟨by norm_num, by norm_num⟩,
    claim_C9_set_state_frame id ⟨[0], [0], [0], [0], ⟨1 / 50, fun h _ _ _ => h⟩⟩
      [1 / 2] [2] [3] (by norm_num) (by norm_num)⟩

end MusicMesa
